import Mathlib

/-!
Verification of the WeensyOS-style kernel (`kernel.c`) and the user-space heap
allocator (`malloc.c`) of this repository.

The development is a shallow embedding:

* machine integers are `Nat` with an explicit `% 2^64` wherever the C code can
  wrap (`uint64_t` / `uintptr_t` arithmetic);
* the physical-memory system is the arena model suggested by the spec's design
  notes: a frame number indexes the page-frame table (`pageinfo`), page tables
  are 512-entry arrays stored in frames (`tables : frame → index → entry`),
  and byte-addressed physical RAM is `mem : Nat → Nat`;
* the user heap is a list of block headers in linked-list order plus the
  program-break bounds and the global live-allocation counter.

Functions whose C source is in `src/` (`freepage`, `virtual_memory_unmap`,
`sbrk`, the `INT_SYS_SBRK` wrapper, `syscall_mapping`, the `INT_SYS_PANIC`
case, the page-fault handler, and the whole of `malloc.c`) are translated from
that source.  Functions the repository uses but whose definitions are not in
`src/` (`virtual_memory_lookup`, `virtual_memory_map`, `palloc`, and the
constants from `kernel.h`) are modelled from the spec and marked as such.
-/

/-! ## Constants (kernel.h is not under src/; values modelled from the spec) -/

/-- Page size: 4096 bytes (spec glossary: frame/page are 4096-byte units). -/
def PAGESIZE : Nat := 4096

/-- Modelled from the spec: size of physical memory (`MEMSIZE_PHYSICAL`,
from `kernel.h`, which is not under src/). -/
def MEMSIZE_PHYSICAL : Nat := 0x200000

/-- Number of physical page frames (`PAGENUMBER(MEMSIZE_PHYSICAL)`). -/
def NPAGES : Nat := MEMSIZE_PHYSICAL / PAGESIZE

/-- Modelled from the spec: top of the user virtual address space
(`MEMSIZE_VIRTUAL`, from `kernel.h`, which is not under src/). -/
def MEMSIZE_VIRTUAL : Nat := 0x300000

/-- Page-table entry permission bit: present. -/
def PTE_P : Nat := 1

/-- Page-table entry permission bit: writable. -/
def PTE_W : Nat := 2

/-- Page-table entry permission bit: user-accessible. -/
def PTE_U : Nat := 4

/-- `2^64`, the modulus of `uint64_t` / `uintptr_t` arithmetic. -/
def U64 : Nat := 18446744073709551616

/-- `sizeof(free_block)` from malloc.c: `{size_t size; free_block* next;
free_block* prev; int freed;}` laid out by the x86-64 ABI: 8+8+8+4 bytes,
padded to an 8-byte multiple, hence 32. -/
def HDRSIZE : Nat := 32

/-! ## User heap allocator model (malloc.c) -/

/-- One heap block header (a `free_block` of malloc.c).  `addr` is the
address of the header itself, `size` the total block size including the
header, `freed` the freed flag.  The `next`/`prev` pointers are represented
by the position of the block in the `MState.blocks` list: malloc.c keeps
every block (live or freed) linked in address order, and every block a user
pointer can refer to is in the list (the first block becomes `head`, split
and sbrk-appended blocks get `prev`/`next` set), so `free`'s
"not yet linked" insertion path (malloc.c:63-108) is unreachable for
pointers returned by `malloc`. -/
structure MBlock where
  addr : Nat
  size : Nat
  freed : Bool
deriving DecidableEq, Repr

/-- The user-heap state: the block list in linked order, the current program
break (`heap_end`), the kernel-side lower bound of the heap
(`original_break`, used by the kernel `sbrk` bounds check that the user
`sbrk` call traps into), the global live-allocation counter
(`total_allocations`, a C `int`, hence `Int`), and payload bytes of memory. -/
structure MState where
  blocks : List MBlock
  heap_end : Nat
  original_break : Nat
  total_allocations : Int
  mem : Nat → Nat

/-- `(sz + 7) & ~7` in `uint64_t` arithmetic (malloc.c:127). -/
def alignSize (sz : Nat) : Nat := (sz + 7) % U64 / 8 * 8

/-- `align_size + sizeof(free_block)` in `uint64_t` arithmetic (malloc.c:128). -/
def totalSize (sz : Nat) : Nat := (alignSize sz + HDRSIZE) % U64

/-- The best-fit scan of malloc.c:131-144: walk the list keeping the freed
block with the smallest `size - total_size`, starting from
`min_size_diff = UINT64_MAX`; a candidate is taken only when its difference
is strictly smaller than the current minimum. -/
def bestFitAux (total : Nat) : List MBlock → Option MBlock → Nat → Option MBlock
  | [], best, _ => best
  | b :: rest, best, minDiff =>
    if b.freed = true ∧ total ≤ b.size ∧ b.size - total < minDiff then
      bestFitAux total rest (some b) (b.size - total)
    else
      bestFitAux total rest best minDiff

/-- Best-fit selection over the whole list (malloc.c:131-144). -/
def bestFit (l : List MBlock) (total : Nat) : Option MBlock :=
  bestFitAux total l none (U64 - 1)

/-- Replace the first block whose header address is `a` by the splice `new`
(used for the in-place update / split performed through the C pointer). -/
def splice : List MBlock → Nat → List MBlock → List MBlock
  | [], _, _ => []
  | b :: rest, a, new => if b.addr = a then new ++ rest else b :: splice rest a new

/-- The user-visible result of the `sbrk` system call malloc.c grows the heap
with: the kernel moves the break when the new break stays at or above
`original_break` and strictly below `MEMSIZE_VIRTUAL - PAGESIZE`
(kernel.c:224-255, growth branch), and the `INT_SYS_SBRK` wrapper returns the
old break on success (kernel.c:396-412). -/
def usbrk_grow (st : MState) (total : Nat) : Option (Nat × MState) :=
  let newbreak := (st.heap_end + total) % U64
  if newbreak < st.original_break ∨ MEMSIZE_VIRTUAL - PAGESIZE ≤ newbreak then none
  else some (st.heap_end, { st with heap_end := newbreak })

/-- `malloc` (malloc.c:121-197).  Returns the user pointer (just past the
chosen block's header) and the new state. -/
def malloc (st : MState) (sz : Nat) : Option Nat × MState :=
  if sz = 0 then (none, st)
  else
    let total := totalSize sz
    match bestFit st.blocks total with
    | some b =>
      if total + HDRSIZE + 8 ≤ b.size then
        (some (b.addr + HDRSIZE),
         { st with
             blocks := splice st.blocks b.addr
               [⟨b.addr, total, false⟩, ⟨b.addr + total, b.size - total, true⟩],
             total_allocations := st.total_allocations + 1 })
      else
        (some (b.addr + HDRSIZE),
         { st with
             blocks := splice st.blocks b.addr [⟨b.addr, b.size, false⟩],
             total_allocations := st.total_allocations + 1 })
    | none =>
      match usbrk_grow st total with
      | none => (none, st)
      | some (oldb, st1) =>
        (some (oldb + HDRSIZE),
         { st1 with
             blocks := st1.blocks ++ [⟨oldb, total, false⟩],
             total_allocations := st1.total_allocations + 1 })

/-- Mark the first block whose header address is `a` as freed
(the `block->freed = 1` write of malloc.c:52). -/
def markFreedAt : List MBlock → Nat → List MBlock
  | [], _ => []
  | b :: rest, a =>
    if b.addr = a then ⟨b.addr, b.size, true⟩ :: rest else b :: markFreedAt rest a

/-- `free` (malloc.c:38-118).  A null pointer is a no-op; otherwise the
counter is decremented and the header is marked freed.  Every block reachable
from a `malloc` return value is already linked (`next`, `prev` or `head`), so
the function then hits the early return at malloc.c:58-61; the address-order
insertion and the coalescing code below it are unreachable for such pointers
and mutate nothing here. -/
def free (st : MState) (p : Nat) : MState :=
  if p = 0 then st
  else
    { st with
        total_allocations := st.total_allocations - 1,
        blocks := markFreedAt st.blocks (p - HDRSIZE) }

/-- Find the block whose header sits at address `a`. -/
def findBlock (l : List MBlock) (a : Nat) : Option MBlock :=
  l.find? (fun b => b.addr = a)

/-- `realloc` (malloc.c:223-241).  The growth test is the C comparison
`block->size >= sz + sizeof(free_block)` in `uint64_t` arithmetic; the copy
moves `block->size - sizeof(free_block)` bytes, then the old pointer is
freed. -/
def realloc (st : MState) (p : Nat) (sz : Nat) : Option Nat × MState :=
  if p = 0 then malloc st sz
  else if sz = 0 then (none, free st p)
  else
    match findBlock st.blocks (p - HDRSIZE) with
    | none => (none, st)
    | some b =>
      if (sz + HDRSIZE) % U64 ≤ b.size then (some p, st)
      else
        match malloc st sz with
        | (none, st1) => (none, st1)
        | (some np, st1) =>
          let n := b.size - HDRSIZE
          let st2 := { st1 with
            mem := fun a => if np ≤ a ∧ a < np + n then st1.mem (a - np + p) else st1.mem a }
          (some np, free st2 p)

/-- One merging pass of `defrag` starting from block `b` (the inner `while`
of malloc.c:257-284): when the current block and its successor are both freed
and physically adjacent they are merged and scanning stays on the merged
block; otherwise scanning advances.  The second component records whether any
merge happened (`did_merge`). -/
def defragAux : MBlock → List MBlock → List MBlock × Bool
  | b, [] => ([b], false)
  | b, c :: rest =>
    if b.freed = true ∧ c.freed = true ∧ b.addr + b.size = c.addr then
      ((defragAux ⟨b.addr, b.size + c.size, b.freed⟩ rest).1, true)
    else
      ((b :: (defragAux c rest).1), (defragAux c rest).2)

/-- One full pass of the `defrag` scan over the list. -/
def defragPass : List MBlock → List MBlock × Bool
  | [] => ([], false)
  | b :: rest => defragAux b rest

/-- The `do … while (did_merge)` loop of malloc.c:252-285, with enough fuel:
every pass that merges shortens the list, so `length + 1` passes always reach
a pass that performs no merge. -/
def defragLoop : Nat → List MBlock → List MBlock
  | 0, l => l
  | fuel + 1, l =>
    match defragPass l with
    | (l1, true) => defragLoop fuel l1
    | (l1, false) => l1

/-- `defrag` (malloc.c:244-289). -/
def defrag (st : MState) : MState :=
  { st with blocks := defragLoop (st.blocks.length + 1) st.blocks }

/-- The live-allocation count reported by `heap_info`: the code copies the
global counter (`info->num_allocs = total_allocations`, malloc.c:391) instead
of counting non-freed headers. -/
def heap_info_num_allocs (st : MState) : Int := st.total_allocations

/-- The number of non-freed headers actually in the list (what the first
pass of `heap_info` counts into its debug variable `counted_allocs`). -/
def countNonFreed (l : List MBlock) : Nat :=
  (l.filter (fun b => b.freed = false)).length

/-- Strict address order of consecutive headers in the list. -/
def sortedAddr : List MBlock → Bool
  | b :: c :: rest => decide (b.addr < c.addr) && sortedAddr (c :: rest)
  | _ => true

/-- No two blocks adjacent in the list are both freed and physically
adjacent (`b.addr + b.size = next.addr`). -/
def noAdjFreed : List MBlock → Bool
  | b :: c :: rest =>
    (!(b.freed && c.freed && decide (b.addr + b.size = c.addr))) && noAdjFreed (c :: rest)
  | _ => true

/-! ## Kernel memory model (kernel.c, with the external walker modelled
from the spec) -/

/-- One record of the page-frame table (`physical_pageinfo`): owner tag and
reference count.  Owner tags: `0` is `PO_FREE`, `-1` is `PO_RESERVED`,
`-2` is `PO_KERNEL`, a value `≥ 1` is a process id. -/
structure PhysPageInfo where
  owner : Int
  refcount : Nat
deriving DecidableEq, Repr

/-- Kernel memory state, in the arena style the spec's design notes
prescribe: `pageinfo` is the page-frame table indexed by frame number;
`tables` gives, for each frame used as a page table, its 512 entries (an
entry is `frame*4096 + permission bits`, `0` meaning empty); `mem` is
byte-addressed physical memory. -/
structure KState where
  pageinfo : Nat → PhysPageInfo
  tables : Nat → Nat → Nat
  mem : Nat → Nat

/-- Level-4 (root) index of a virtual address. -/
def idx3 (va : Nat) : Nat := va / 2 ^ 39 % 512

/-- Level-3 index of a virtual address. -/
def idx2 (va : Nat) : Nat := va / 2 ^ 30 % 512

/-- Level-2 index of a virtual address. -/
def idx1 (va : Nat) : Nat := va / 2 ^ 21 % 512

/-- Level-1 (leaf) index of a virtual address. -/
def idx0 (va : Nat) : Nat := va / 2 ^ 12 % 512

/-- The record `virtual_memory_lookup` returns: page number (`-1` when no
mapping exists), physical address, and permission bits. -/
structure VAMapping where
  pn : Int
  pa : Nat
  perm : Nat
deriving DecidableEq, Repr

/-- The sentinel "no mapping" record. -/
def vamInvalid : VAMapping := ⟨-1, 0, 0⟩

/-- Modelled from the spec: `virtual_memory_lookup` (its source, in the
hardware support code, is not under src/).  Descend the four levels; if any
level is absent (present bit clear, tested as `entry % 2 = 0`), return the
sentinel; otherwise return the leaf frame number, the physical address
including the page offset, and the permission bits — per the spec's
permission tie-break, the AND of the permission bits of every level. -/
def vm_lookup (ks : KState) (root va : Nat) : VAMapping :=
  let e3 := ks.tables root (idx3 va)
  if e3 % 2 = 0 then vamInvalid else
  let e2 := ks.tables (e3 / 4096) (idx2 va)
  if e2 % 2 = 0 then vamInvalid else
  let e1 := ks.tables (e2 / 4096) (idx1 va)
  if e1 % 2 = 0 then vamInvalid else
  let e0 := ks.tables (e1 / 4096) (idx0 va)
  if e0 % 2 = 0 then vamInvalid else
  ⟨(e0 / 4096 : Nat), e0 / 4096 * 4096 + va % 4096, e3 &&& e2 &&& e1 &&& e0 &&& 4095⟩

/-- Overwrite one page-table entry. -/
def setEntry (ks : KState) (f i e : Nat) : KState :=
  { ks with tables := fun g j => if g = f ∧ j = i then e else ks.tables g j }

/-- Zero a whole frame's page-table (a fresh interior table). -/
def zeroFrameTable (ks : KState) (f : Nat) : KState :=
  { ks with tables := fun g j => if g = f then 0 else ks.tables g j }

/-- Overwrite one page-frame record. -/
def setPageinfo (ks : KState) (pn : Nat) (v : PhysPageInfo) : KState :=
  { ks with pageinfo := fun q => if q = pn then v else ks.pageinfo q }

/-- Modelled from the spec: `palloc(owner)`, the physical-frame allocator the
fault handler draws from (its source is not under src/).  Per the spec's
Allocate-for operation: return the physical address of some frame whose
refcount is 0, setting it to 1 and recording the owner; fail when none
exists.  The model picks the lowest-numbered free frame. -/
def palloc (ks : KState) (owner : Int) : Option (KState × Nat) :=
  match (List.range NPAGES).find? (fun pn => (ks.pageinfo pn).refcount = 0) with
  | none => none
  | some pn => some (setPageinfo ks pn ⟨owner, 1⟩, pn * 4096)

/-- Modelled from the spec: one level of `virtual_memory_map`'s walk — if the
entry at `(f, i)` is present, descend into its frame; otherwise allocate a
fresh frame from `palloc`, zero it, and install it with permissions
present|writable|user (entry `pa + 7`) so leaf permissions govern.  Returns
the possibly partially-updated state and the next-level frame (or `none` when
the interior allocation failed). -/
def ensureTable (ks : KState) (owner : Int) (f i : Nat) : KState × Option Nat :=
  let e := ks.tables f i
  if e % 2 = 1 then (ks, some (e / 4096)) else
  match palloc ks owner with
  | none => (ks, none)
  | some (ks1, pa) =>
    (setEntry (zeroFrameTable ks1 (pa / 4096)) f i (pa + 7), some (pa / 4096))

/-- Modelled from the spec: `virtual_memory_map(root, va, pa, PAGESIZE, perm)`
for a single page (its source is not under src/).  Walk the three interior
levels, allocating missing tables; on an interior-allocation failure return
`-1` leaving partial work in place; otherwise install the leaf entry
`pa | perm` (with `pa = 0 ∧ perm = 0` this clears the entry). -/
def vm_map (ks : KState) (owner : Int) (root va pa perm : Nat) : KState × Int :=
  match ensureTable ks owner root (idx3 va) with
  | (ks1, none) => (ks1, -1)
  | (ks1, some f3) =>
    match ensureTable ks1 owner f3 (idx2 va) with
    | (ks2, none) => (ks2, -1)
    | (ks2, some f2) =>
      match ensureTable ks2 owner f2 (idx1 va) with
      | (ks3, none) => (ks3, -1)
      | (ks3, some f1) =>
        (setEntry ks3 f1 (idx0 va) (pa / 4096 * 4096 + perm % 4096), 0)

/-- The page-frame release on the `pageinfo` table alone (`freepage`,
kernel.c:164-192): align the address, bounds-check the frame number, and
decrement a positive refcount, marking the owner free exactly when the count
reaches zero. -/
def freepageInfo (pi : Nat → PhysPageInfo) (pa : Nat) : Nat → PhysPageInfo :=
  if pa = 0 then pi
  else
    let pn := pa / PAGESIZE * PAGESIZE / PAGESIZE
    if NPAGES ≤ pn then pi
    else if 0 < (pi pn).refcount then
      fun q => if q = pn then
        ⟨if (pi pn).refcount - 1 = 0 then 0 else (pi pn).owner, (pi pn).refcount - 1⟩
      else pi q
    else pi

/-- `freepage(pa)` (kernel.c:164-192), lifted to the whole kernel state. -/
def freepage (ks : KState) (pa : Nat) : KState :=
  { ks with pageinfo := freepageInfo ks.pageinfo pa }

/-- `virtual_memory_unmap(pagetable, va)` (kernel.c:195-220): look the address
up; absent mappings succeed immediately; otherwise clear the leaf through
`virtual_memory_map(…, 0, PAGESIZE, 0)` and release the backing frame. -/
def virtual_memory_unmap (ks : KState) (root va : Nat) : KState × Int :=
  let map := vm_lookup ks root va
  if map.pn = -1 then (ks, 0)
  else
    match vm_map ks 0 root va 0 0 with
    | (ks1, r) =>
      if r < 0 then (ks1, -1)
      else if map.pa ≠ 0 then (freepage ks1 map.pa, 0)
      else (ks1, 0)

/-- Process lifecycle states used by the modelled code paths. -/
inductive PState where
  | free
  | runnable
  | broken
deriving DecidableEq, Repr

/-- The slice of a process descriptor (`proc`) the modelled code paths
touch: pid, state, root page-table frame, heap bounds, and the saved `%rax`
used to return system-call results. -/
structure Proc where
  pid : Int
  p_state : PState
  pagetable : Nat
  original_break : Nat
  program_break : Nat
  reg_rax : Nat
deriving Repr

/-- `ROUNDUP(x, PAGESIZE)`. -/
def ROUNDUP_PAGE (x : Nat) : Nat := (x + 4095) / 4096 * 4096

/-- The page start addresses `lo, lo + PAGESIZE, …` strictly below `hi`
(the shrink loop's iteration space, kernel.c:245). -/
def pageRange (lo hi : Nat) : List Nat :=
  (List.range ((hi - lo) / 4096)).map (fun k => lo + 4096 * k)

/-- The `for` loop of the shrink branch (kernel.c:245-250): unmap each page,
aborting with `-1` if an unmap fails. -/
def shrinkPages (root : Nat) : KState → List Nat → KState × Int
  | ks, [] => (ks, 0)
  | ks, a :: rest =>
    match virtual_memory_unmap ks root a with
    | (ks1, r) => if r < 0 then (ks1, -1) else shrinkPages root ks1 rest

/-- `sbrk(p, difference)` (kernel.c:224-255).  `difference` is the 64-bit
pattern of the `intptr_t` argument, so `oldbreak + difference` wraps modulo
`2^64` exactly as the C `uintptr_t` addition does.  Bounds are checked first;
growth only moves the break; shrinking unmaps the pages from the new break
rounded up to the old break rounded up, then moves the break. -/
def sbrk (ks : KState) (p : Proc) (difference : Nat) : KState × Proc × Int :=
  let oldbreak := p.program_break
  let newbreak := (oldbreak + difference) % U64
  if newbreak < p.original_break ∨ MEMSIZE_VIRTUAL - PAGESIZE ≤ newbreak then
    (ks, p, -1)
  else if oldbreak < newbreak then
    (ks, { p with program_break := newbreak }, 0)
  else if newbreak < oldbreak then
    match shrinkPages p.pagetable ks
        (pageRange (ROUNDUP_PAGE newbreak) (ROUNDUP_PAGE oldbreak)) with
    | (ks1, r) =>
      if r < 0 then (ks1, p, -1)
      else (ks1, { p with program_break := newbreak }, 0)
  else (ks, p, 0)

/-- The `INT_SYS_SBRK` case of `exception` (kernel.c:396-412): capture the
old break, call `sbrk`, and return the old break in `%rax` on success or
`(uintptr_t)-1` on failure. -/
def int_sys_sbrk (ks : KState) (p : Proc) (rdi : Nat) : KState × Proc :=
  let old_break := p.program_break
  match sbrk ks p rdi with
  | (ks1, p1, r) =>
    if r < 0 then (ks1, { p1 with reg_rax := U64 - 1 })
    else (ks1, { p1 with reg_rax := old_break })

/-- The signed value of a 64-bit register read as `intptr_t`. -/
def intptrOfUInt64 (x : Nat) : Int :=
  if x < 2 ^ 63 then (x : Int) else (x : Int) - (U64 : Int)

/-- `memset(pa, 0, PAGESIZE)` on physical memory. -/
def memsetPage (ks : KState) (pa : Nat) : KState :=
  { ks with mem := fun a => if pa ≤ a ∧ a < pa + PAGESIZE then 0 else ks.mem a }

/-- The `INT_PAGEFAULT` handling of a user-mode fault (kernel.c:449-495).
Inside the heap window `[original_break, program_break)`: round the address
down; if a present mapping exists, mark runnable; otherwise allocate a frame
via `palloc` (out of memory marks broken; so does `palloc` returning address
0, the C null test), zero it, map it present|writable|user, releasing the
frame and marking broken on map failure, and mark runnable on success.
Outside the window the process is marked broken. -/
def exception_pagefault_user (ks : KState) (p : Proc) (addr : Nat) : KState × Proc :=
  if p.original_break ≤ addr ∧ addr < p.program_break then
    let page_addr := addr / 4096 * 4096
    let mapping := vm_lookup ks p.pagetable page_addr
    if mapping.perm % 2 = 1 then (ks, { p with p_state := PState.runnable })
    else
      match palloc ks p.pid with
      | none => (ks, { p with p_state := PState.broken })
      | some (ks1, pa) =>
        if pa = 0 then (ks1, { p with p_state := PState.broken })
        else
          let ks2 := memsetPage ks1 pa
          match vm_map ks2 p.pid p.pagetable page_addr pa 7 with
          | (ks3, r) =>
            if r < 0 then (freepage ks3 pa, { p with p_state := PState.broken })
            else (ks3, { p with p_state := PState.runnable })
  else (ks, { p with p_state := PState.broken })

/-- The dispatcher tail (kernel.c:521-527): the faulting process is resumed
(run again immediately) exactly when it is left runnable; otherwise the
scheduler picks someone else. -/
def resumesCurrent (p : Proc) : Bool := p.p_state = PState.runnable

/-! ## The mapping and panic system calls (kernel.c) -/

/-- Modelled from the spec: `sizeof(vamapping)` (the struct is declared in
kernel.h, which is not under src/).  The record `{int pn; uintptr_t pa; int
perm}` under the x86-64 ABI: 4 bytes + 4 padding + 8 + 4 + 4 padding = 24. -/
def sizeofVamapping : Nat := 24

/-- The two's-complement 32-bit pattern of an `int`. -/
def int32bits (z : Int) : Nat := (z.emod (2 ^ 32)).toNat

/-- Modelled from the spec: the byte image `memcpy` writes for a `vamapping`
record (little-endian x86-64 layout of `{int pn; uintptr_t pa; int perm}`). -/
def encodeVam (v : VAMapping) (i : Nat) : Nat :=
  if i < 4 then int32bits v.pn / 2 ^ (8 * i) % 256
  else if i < 8 then 0
  else if i < 16 then v.pa / 2 ^ (8 * (i - 8)) % 256
  else if i < 20 then v.perm / 2 ^ (8 * (i - 16)) % 256
  else 0

/-- The `memcpy((void*)map.pa, &ptr_lookup, sizeof(vamapping))` of
kernel.c:276: write the record for `rsi`'s lookup at physical address `pa`. -/
def writeVamRecord (ks : KState) (root pa rsi : Nat) : KState :=
  let ptr_lookup := vm_lookup ks root rsi
  { ks with
      mem := fun a =>
        if pa ≤ a ∧ a < pa + sizeofVamapping then encodeVam ptr_lookup (a - pa)
        else ks.mem a }

/-- `syscall_mapping(p)` (kernel.c:257-277).  `rdi` is the destination buffer
pointer, `rsi` the queried address.  The first byte's page must be
write+user; the end-of-buffer check runs only when the page number of
`rdi + sizeof(vamapping) - 1` differs from the page number of `rsi` (the
queried address — the C code compares against `ptr`, not the buffer), and
then demands write+present. -/
def syscall_mapping (ks : KState) (root rdi rsi : Nat) : KState :=
  let map := vm_lookup ks root rdi
  if map.perm &&& (PTE_W + PTE_U) ≠ PTE_W + PTE_U then ks
  else
    let endaddr := rdi + sizeofVamapping - 1
    if endaddr / 4096 ≠ rsi / 4096 then
      let end_map := vm_lookup ks root endaddr
      if end_map.perm &&& (PTE_W + PTE_P) ≠ PTE_W + PTE_P then ks
      else writeVamRecord ks root map.pa rsi
    else writeVamRecord ks root map.pa rsi

/-- Outcome of a trap-handler case: either the machine halts (kernel panic,
optionally with a message of bytes) or control can return to a process. -/
inductive ExcOutcome where
  | halted (msg : Option (List Nat))
  | resumed
deriving DecidableEq, Repr

/-- The `INT_SYS_PANIC` case of `exception` (kernel.c:333-348).  A null
message pointer halts with no message.  Otherwise the kernel looks up the
pointer once and `memcpy`s 160 physically contiguous bytes starting at the
looked-up physical address into the message buffer — no permission check,
and no second lookup when the 160-byte window crosses a page boundary — then
halts.  Every path ends in `kernel_panic`, which never returns. -/
def int_sys_panic (ks : KState) (root rdi : Nat) : ExcOutcome :=
  if rdi = 0 then ExcOutcome.halted none
  else
    let map := vm_lookup ks root rdi
    ExcOutcome.halted (some ((List.range 160).map (fun i => ks.mem (map.pa + i))))

/-- Modelled from the spec: the panic-message read the claim describes —
validate the permissions of the (at most two) pages the 160-byte window
touches, and read each byte through the mapping of the page that contains
it; on a permission shortfall halt with no message. -/
def panic_read_spec (ks : KState) (root rdi : Nat) : Option (List Nat) :=
  let m1 := vm_lookup ks root rdi
  let m2 := vm_lookup ks root (rdi + 159)
  if m1.perm &&& (PTE_P + PTE_U) = PTE_P + PTE_U
      ∧ m2.perm &&& (PTE_P + PTE_U) = PTE_P + PTE_U then
    some ((List.range 160).map (fun i => ks.mem ((vm_lookup ks root (rdi + i)).pa)))
  else none

/-! ## Walk analysis: the table slots a lookup reads -/

/-- The `(frame, index)` pairs `vm_lookup ks root va` reads, in order; the
walk stops at the first absent level. -/
def walkReads (ks : KState) (root va : Nat) : List (Nat × Nat) :=
  let e3 := ks.tables root (idx3 va)
  if e3 % 2 = 0 then [(root, idx3 va)] else
  let e2 := ks.tables (e3 / 4096) (idx2 va)
  if e2 % 2 = 0 then [(root, idx3 va), (e3 / 4096, idx2 va)] else
  let e1 := ks.tables (e2 / 4096) (idx1 va)
  if e1 % 2 = 0 then [(root, idx3 va), (e3 / 4096, idx2 va), (e2 / 4096, idx1 va)] else
  [(root, idx3 va), (e3 / 4096, idx2 va), (e2 / 4096, idx1 va), (e1 / 4096, idx0 va)]

/-- The first three (interior) slots of a complete walk. -/
def interiorReads (ks : KState) (root va : Nat) : List (Nat × Nat) :=
  let e3 := ks.tables root (idx3 va)
  if e3 % 2 = 0 then [(root, idx3 va)] else
  let e2 := ks.tables (e3 / 4096) (idx2 va)
  if e2 % 2 = 0 then [(root, idx3 va), (e3 / 4096, idx2 va)] else
  [(root, idx3 va), (e3 / 4096, idx2 va), (e2 / 4096, idx1 va)]

/-- The leaf slot of a complete walk: the `(frame, index)` pair holding the
level-1 entry for `va`, or `none` when some interior level is absent. -/
def leafSlot (ks : KState) (root va : Nat) : Option (Nat × Nat) :=
  let e3 := ks.tables root (idx3 va)
  if e3 % 2 = 0 then none else
  let e2 := ks.tables (e3 / 4096) (idx2 va)
  if e2 % 2 = 0 then none else
  let e1 := ks.tables (e2 / 4096) (idx1 va)
  if e1 % 2 = 0 then none else
  some (e1 / 4096, idx0 va)

/-- Well-formedness of the walk for `va` from `root`, as needed to reason
about `vm_map` installing a fresh leaf: the root frame is live
(`refcount > 0`), and every present interior entry on the path has
permission bits exactly present|writable|user, leads to a live frame, and
the frames on the path are pairwise distinct.  All of this holds of any
properly built page table (interiors are installed with exactly
present|writable|user, and every table frame is live with refcount 1). -/
def wfWalk (ks : KState) (root va : Nat) : Prop :=
  0 < (ks.pageinfo root).refcount ∧
  (ks.tables root (idx3 va) % 2 = 1 →
    ks.tables root (idx3 va) % 4096 = 7 ∧
    0 < (ks.pageinfo (ks.tables root (idx3 va) / 4096)).refcount ∧
    ks.tables root (idx3 va) / 4096 ≠ root) ∧
  (ks.tables root (idx3 va) % 2 = 1 →
   ks.tables (ks.tables root (idx3 va) / 4096) (idx2 va) % 2 = 1 →
    ks.tables (ks.tables root (idx3 va) / 4096) (idx2 va) % 4096 = 7 ∧
    0 < (ks.pageinfo
      (ks.tables (ks.tables root (idx3 va) / 4096) (idx2 va) / 4096)).refcount ∧
    ks.tables (ks.tables root (idx3 va) / 4096) (idx2 va) / 4096 ≠ root ∧
    ks.tables (ks.tables root (idx3 va) / 4096) (idx2 va) / 4096 ≠
      ks.tables root (idx3 va) / 4096) ∧
  (ks.tables root (idx3 va) % 2 = 1 →
   ks.tables (ks.tables root (idx3 va) / 4096) (idx2 va) % 2 = 1 →
   ks.tables (ks.tables (ks.tables root (idx3 va) / 4096) (idx2 va) / 4096)
     (idx1 va) % 2 = 1 →
    ks.tables (ks.tables (ks.tables root (idx3 va) / 4096) (idx2 va) / 4096)
      (idx1 va) % 4096 = 7 ∧
    0 < (ks.pageinfo (ks.tables (ks.tables (ks.tables root (idx3 va) / 4096)
      (idx2 va) / 4096) (idx1 va) / 4096)).refcount ∧
    ks.tables (ks.tables (ks.tables root (idx3 va) / 4096) (idx2 va) / 4096)
      (idx1 va) / 4096 ≠ root ∧
    ks.tables (ks.tables (ks.tables root (idx3 va) / 4096) (idx2 va) / 4096)
      (idx1 va) / 4096 ≠ ks.tables root (idx3 va) / 4096 ∧
    ks.tables (ks.tables (ks.tables root (idx3 va) / 4096) (idx2 va) / 4096)
      (idx1 va) / 4096 ≠
      ks.tables (ks.tables root (idx3 va) / 4096) (idx2 va) / 4096)

set_option synthInstance.maxSize 512 in
set_option synthInstance.maxHeartbeats 1000000 in
instance (ks : KState) (root va : Nat) : Decidable (wfWalk ks root va) := by
  unfold wfWalk
  infer_instance

/-- The message carried by a halt outcome. -/
def excMsg : ExcOutcome → Option (List Nat)
  | ExcOutcome.halted m => m
  | ExcOutcome.resumed => none

/-! ## Effect characterizations used by the sbrk-shrink claim -/

/-- The leaf slots the shrink loop clears: one per originally mapped page of
the range (computed on the pre-state). -/
def clearedSlots (ks : KState) (root : Nat) (T : List Nat) : List (Nat × Nat) :=
  T.filterMap (fun A =>
    if (vm_lookup ks root A).pn ≠ -1 then leafSlot ks root A else none)

/-- The physical addresses the shrink loop releases: the nonzero backing
addresses of the originally mapped pages of the range. -/
def backingPAs (ks : KState) (root : Nat) (T : List Nat) : List Nat :=
  T.filterMap (fun A =>
    let m := vm_lookup ks root A
    if m.pn ≠ -1 ∧ m.pa ≠ 0 then some m.pa else none)

/-- Non-interference well-formedness of a list of pages about to be
unmapped: each mapped page's leaf slot is not among its own interior reads,
and not among the table slots any other listed page's walk reads.  This holds
in any properly formed page table (two distinct pages never share a leaf
slot, and leaf tables are distinct from interior tables), and it is what
makes the per-page clears independent. -/
def shrinkWF (ks : KState) (root : Nat) (T : List Nat) : Prop :=
  ∀ A ∈ T, ∀ sA ∈ leafSlot ks root A,
    sA ∉ interiorReads ks root A ∧
    ∀ B ∈ T, A ≠ B → sA ∉ walkReads ks root B

instance (ks : KState) (root : Nat) (T : List Nat) : Decidable (shrinkWF ks root T) := by
  unfold shrinkWF
  infer_instance

/-- What claim C3 asserts of a shrinking `sbrk`, phrased on the model:
the call succeeds and moves the break; the pages whose start lies in
`[ROUNDUP(new), ROUNDUP(old))` — exactly the members of `pageRange` — are
unmapped afterwards; every other mapping is unchanged; frames not backing a
page of the range are untouched; each backing frame is released once. -/
def C3Post (ks : KState) (p : Proc) (difference : Nat) : Prop :=
  let newb := (p.program_break + difference) % U64
  let lo := ROUNDUP_PAGE newb
  let hi := ROUNDUP_PAGE p.program_break
  let T := pageRange lo hi
  let root := p.pagetable
  let res := sbrk ks p difference
  res.2.2 = 0 ∧
  res.2.1.program_break = newb ∧
  (∀ va, va ∈ T ↔ va % 4096 = 0 ∧ lo ≤ va ∧ va < hi) ∧
  (∀ A ∈ T, (vm_lookup res.1 root A).pn = -1) ∧
  (∀ va', (∀ A ∈ T, ∀ sA, leafSlot ks root A = some sA →
              sA ∉ walkReads ks root va') →
     vm_lookup res.1 root va' = vm_lookup ks root va') ∧
  (∀ pn, pn ∉ (backingPAs ks root T).map (fun pa => pa / PAGESIZE) →
     res.1.pageinfo pn = ks.pageinfo pn) ∧
  (∀ pa ∈ backingPAs ks root T,
     res.1.pageinfo (pa / PAGESIZE) =
       ⟨if (ks.pageinfo (pa / PAGESIZE)).refcount - 1 = 0 then 0
        else (ks.pageinfo (pa / PAGESIZE)).owner,
        (ks.pageinfo (pa / PAGESIZE)).refcount - 1⟩) ∧
  res.1.mem = ks.mem

/-- What claim C1 asserts of a user-mode fault inside the heap window,
phrased on the model.  The four cases follow the handler: present mapping —
resume; allocator exhausted — broken; frame allocated — it is owned by the
faulting process with refcount 1, and then either the map step succeeds (the
page is zero-filled, mapped present|writable|user, and the process resumes)
or it fails (the frame is released back to refcount 0 / owner free and the
process is broken). -/
def C1Post (ks : KState) (p : Proc) (addr : Nat) : Prop :=
  let page := addr / 4096 * 4096
  let m := vm_lookup ks p.pagetable page
  let res := exception_pagefault_user ks p addr
  (m.perm % 2 = 1 →
     res = (ks, { p with p_state := PState.runnable }) ∧
     resumesCurrent res.2 = true) ∧
  (m.perm % 2 = 0 → palloc ks p.pid = none →
     res = (ks, { p with p_state := PState.broken }) ∧
     resumesCurrent res.2 = false) ∧
  (∀ ks1 pa, m.perm % 2 = 0 → palloc ks p.pid = some (ks1, pa) →
     ks1.pageinfo (pa / 4096) = ⟨p.pid, 1⟩ ∧
     pa ≠ 0 ∧
     (let mr := vm_map (memsetPage ks1 pa) p.pid p.pagetable page pa 7
      (mr.2 = 0 →
         res = (mr.1, { p with p_state := PState.runnable }) ∧
         resumesCurrent res.2 = true ∧
         (∀ i < PAGESIZE, mr.1.mem (pa + i) = 0) ∧
         vm_lookup mr.1 p.pagetable page = ⟨(pa / 4096 : Nat), pa, 7⟩) ∧
      (mr.2 ≠ 0 →
         res = (freepage mr.1 pa, { p with p_state := PState.broken }) ∧
         resumesCurrent res.2 = false ∧
         (freepage mr.1 pa).pageinfo (pa / 4096) = ⟨0, 0⟩)))

/-! ## Concrete states used by witnesses and counterexamples -/

/-- The empty user heap right after `initialize_heap` with the program break
at `0x100000`. -/
def mstate0 : MState := ⟨[], 0x100000, 0x100000, 0, fun _ => 0⟩

/-- `malloc(8); malloc(8); free(first); free(second)` from the empty heap:
two 40-byte blocks at `0x100000` and `0x100028`, both freed and physically
adjacent. -/
def c4state : MState :=
  free (free (malloc (malloc mstate0 8).2 8).2 0x100020) 0x100048

/-- `malloc(8); malloc(8); free(first); free(first)` — a double free of the
first pointer while the second stays live. -/
def c10state : MState :=
  free (free (malloc (malloc mstate0 8).2 8).2 0x100020) 0x100020

/-- A heap with a single live 40-byte block (8-byte payload) at header
address 64; its payload pointer is 96. -/
def c8cexState : MState := ⟨[⟨64, 40, false⟩], 104, 64, 1, fun _ => 0⟩

/-- A heap with one freed 48-byte block and one live 40-byte block. -/
def c7wState : MState := ⟨[⟨64, 48, true⟩, ⟨112, 40, false⟩], 152, 64, 1, fun _ => 0⟩

/-- A heap with a single live 40-byte block whose payload bytes are
`1, 2, …` counted from the payload start. -/
def c8wState : MState :=
  ⟨[⟨64, 40, false⟩], 104, 64, 1, fun a => if 96 ≤ a ∧ a < 104 then a - 95 else 0⟩

/-- A page-frame table with frame 5 at refcount 2 (owner 3) and frame 6 at
refcount 1 (owner 1); everything else free.  Satisfies `refcount = 0 ↔ owner
free`. -/
def ksC9w : KState :=
  ⟨fun pn => if pn = 5 then ⟨3, 2⟩ else if pn = 6 then ⟨1, 1⟩ else ⟨0, 0⟩,
   fun _ _ => 0, fun _ => 0⟩

/-- A four-level page table rooted at frame 1 through interior frames 2, 3, 4
mapping exactly virtual page `0x41000` to frame 5 with permissions
present|writable|user; virtual page `0x42000` is unmapped. -/
def tablesOnePage : Nat → Nat → Nat := fun f i =>
  if f = 1 ∧ i = 0 then 2 * 4096 + 7
  else if f = 2 ∧ i = 0 then 3 * 4096 + 7
  else if f = 3 ∧ i = 0 then 4 * 4096 + 7
  else if f = 4 ∧ i = 0x41 then 5 * 4096 + 7
  else 0

/-- Kernel state for the `syscall_mapping` counterexample: the one-page
table above, zeroed memory. -/
def ksC5x : KState := ⟨fun _ => ⟨0, 0⟩, tablesOnePage, fun _ => 0⟩

/-- Kernel state for the `syscall_mapping` witness (same table, memory all
`0x11`). -/
def ksC5w : KState := ⟨fun _ => ⟨0, 0⟩, tablesOnePage, fun _ => 0x11⟩

/-- Kernel state for the panic counterexample: the one-page table; physical
bytes are `0xAA` inside frame 5 (`0x5000`–`0x5FFF`) and `0xBB` above it. -/
def ksC6x : KState :=
  ⟨fun _ => ⟨0, 0⟩, tablesOnePage,
   fun a => if 0x5000 ≤ a ∧ a < 0x6000 then 0xAA else 0xBB⟩

/-- Kernel state for the panic witness. -/
def ksC6w : KState := ⟨fun _ => ⟨0, 0⟩, tablesOnePage, fun a => a % 256⟩

/-- Kernel state for the page-fault witness: frames 0 and 1 are reserved and
kernel-owned, everything else free; the process root (frame 1) has no
entries yet. -/
def ksC1w : KState :=
  ⟨fun pn => if pn = 0 then ⟨-1, 1⟩ else if pn = 1 then ⟨-2, 1⟩ else ⟨0, 0⟩,
   fun _ _ => 0, fun _ => 0⟩

/-- Process for the page-fault witness: pid 1, root frame 1, heap window
`[0x100000, 0x102000)`. -/
def pC1w : Proc := ⟨1, PState.runnable, 1, 0x100000, 0x102000, 0⟩

/-- Kernel state for the sbrk witness: all tables empty. -/
def ksC2w : KState := ⟨fun _ => ⟨0, 0⟩, fun _ _ => 0, fun _ => 0⟩

/-- Process for the sbrk witness. -/
def pC2w : Proc := ⟨1, PState.runnable, 1, 0x100000, 0x101000, 0⟩

/-- Kernel state for the shrink witness: the root (frame 1) reaches interior
frames 2, 3, 4, and leaf frame 4 maps virtual page `0x101000` (leaf index
`0x101`) to frame 6; frames 0–4 and 6 are live. -/
def ksC3w : KState :=
  ⟨fun pn => if pn = 0 then ⟨-1, 1⟩ else if pn ≤ 4 then ⟨1, 1⟩
             else if pn = 6 then ⟨1, 1⟩ else ⟨0, 0⟩,
   fun f i =>
     if f = 1 ∧ i = 0 then 2 * 4096 + 7
     else if f = 2 ∧ i = 0 then 3 * 4096 + 7
     else if f = 3 ∧ i = 0 then 4 * 4096 + 7
     else if f = 4 ∧ i = 0x101 then 6 * 4096 + 7
     else 0,
   fun _ => 0⟩

/-- Process for the shrink witness: heap window `[0x100000, 0x102000)`,
about to shrink by one page. -/
def pC3w : Proc := ⟨1, PState.runnable, 1, 0x100000, 0x102000, 0⟩

/-- What claim C2 asserts of the `sbrk` system call, phrased on the model:
with `delta` the signed reading of the argument register, success (new break
at or above `original_break` and strictly below the address-space top minus
one page) returns the old break and moves the break to `old + delta`; any
other request returns `(uintptr_t)-1` with the kernel state and the process
(in particular its break) unchanged. -/
def C2Post (ks : KState) (p : Proc) (rdi : Nat) : Prop :=
  let delta := intptrOfUInt64 rdi
  let res := int_sys_sbrk ks p rdi
  (((p.original_break : Int) ≤ (p.program_break : Int) + delta ∧
      (p.program_break : Int) + delta < ((MEMSIZE_VIRTUAL - PAGESIZE : Nat) : Int)) →
     res.2.reg_rax = p.program_break ∧
     (res.2.program_break : Int) = (p.program_break : Int) + delta ∧
     res.2.pid = p.pid ∧ res.2.p_state = p.p_state) ∧
  (¬((p.original_break : Int) ≤ (p.program_break : Int) + delta ∧
      (p.program_break : Int) + delta < ((MEMSIZE_VIRTUAL - PAGESIZE : Nat) : Int)) →
     res = (ks, { p with reg_rax := U64 - 1 }))

/-- What the corrected claim C4 asserts: `free` and `defrag` keep the
headers in strict address order, and after `defrag` no two blocks adjacent
in the list are both freed and physically adjacent (`free` itself performs
no coalescing, so it does not reestablish that property). -/
def C4Post (st : MState) (p : Nat) : Prop :=
  sortedAddr (free st p).blocks = true ∧
  sortedAddr (defrag st).blocks = true ∧
  noAdjFreed (defrag st).blocks = true

/-- What the corrected claim C5 asserts of `syscall_mapping`: the record is
written iff the first byte's page is write+user and, in the sole case where
the end-of-buffer check runs at all — the page number of
`rdi + sizeof(vamapping) - 1` differing from the page number of the queried
address `rsi` — that end page is write+present; a failed check returns with
no write. -/
def C5Post (ks : KState) (root rdi rsi : Nat) : Prop :=
  let map := vm_lookup ks root rdi
  let endaddr := rdi + sizeofVamapping - 1
  let res := syscall_mapping ks root rdi rsi
  (map.perm &&& (PTE_W + PTE_U) ≠ PTE_W + PTE_U → res = ks) ∧
  (map.perm &&& (PTE_W + PTE_U) = PTE_W + PTE_U →
   endaddr / 4096 ≠ rsi / 4096 →
   (vm_lookup ks root endaddr).perm &&& (PTE_W + PTE_P) ≠ PTE_W + PTE_P →
     res = ks) ∧
  (map.perm &&& (PTE_W + PTE_U) = PTE_W + PTE_U →
   (endaddr / 4096 = rsi / 4096 ∨
      (vm_lookup ks root endaddr).perm &&& (PTE_W + PTE_P) = PTE_W + PTE_P) →
     (∀ i < sizeofVamapping,
        res.mem (map.pa + i) = encodeVam (vm_lookup ks root rsi) i) ∧
     (∀ a, a < map.pa ∨ map.pa + sizeofVamapping ≤ a → res.mem a = ks.mem a) ∧
     res.tables = ks.tables ∧
     res.pageinfo = ks.pageinfo)

/-- What the corrected claim C6 asserts of the panic system call: a null
pointer halts with no message; a non-null pointer halts with a message of
exactly 160 bytes read from physically contiguous memory starting at the
physical address the single lookup of the pointer yields (no permission
check, no second-page translation); every path halts. -/
def C6Post (ks : KState) (root rdi : Nat) : Prop :=
  (rdi = 0 → int_sys_panic ks root rdi = ExcOutcome.halted none) ∧
  (rdi ≠ 0 → int_sys_panic ks root rdi =
     ExcOutcome.halted (some ((List.range 160).map
       (fun i => ks.mem ((vm_lookup ks root rdi).pa + i))))) ∧
  (∃ m, int_sys_panic ks root rdi = ExcOutcome.halted m) ∧
  (∀ l, excMsg (int_sys_panic ks root rdi) = some l → l.length = 160)

/-- What claim C7 asserts of `malloc`: zero returns null; otherwise the
total is the request rounded up to a multiple of 8 plus the header size, the
chosen block is a freed block of minimal sufficient size, it is split
exactly when the remainder leaves room for a header plus 8 payload bytes
(lower part allocated, upper part a new freed block in place), the returned
pointer is just past the chosen header, and when no freed block fits the
heap grows by the total via sbrk and the new block is appended not-free. -/
def C7Post (st : MState) (sz : Nat) : Prop :=
  malloc st 0 = (none, st) ∧
  (0 < sz →
    totalSize sz = (sz + 7) / 8 * 8 + HDRSIZE ∧
    (∀ b, bestFit st.blocks (totalSize sz) = some b →
      b ∈ st.blocks ∧ b.freed = true ∧ totalSize sz ≤ b.size ∧
      (∀ c ∈ st.blocks, c.freed = true → totalSize sz ≤ c.size → b.size ≤ c.size) ∧
      (malloc st sz).1 = some (b.addr + HDRSIZE) ∧
      (malloc st sz).2.total_allocations = st.total_allocations + 1 ∧
      (malloc st sz).2.heap_end = st.heap_end ∧
      (totalSize sz + HDRSIZE + 8 ≤ b.size →
         (malloc st sz).2.blocks = splice st.blocks b.addr
           [⟨b.addr, totalSize sz, false⟩,
            ⟨b.addr + totalSize sz, b.size - totalSize sz, true⟩]) ∧
      (b.size < totalSize sz + HDRSIZE + 8 →
         (malloc st sz).2.blocks = splice st.blocks b.addr [⟨b.addr, b.size, false⟩])) ∧
    (bestFit st.blocks (totalSize sz) = none →
      (∀ c ∈ st.blocks, c.freed = true → c.size < totalSize sz) ∧
      (∀ oldb st1, usbrk_grow st (totalSize sz) = some (oldb, st1) →
         oldb = st.heap_end ∧ st1.heap_end = (st.heap_end + totalSize sz) % U64 ∧
         malloc st sz = (some (oldb + HDRSIZE),
           { st1 with
               blocks := st1.blocks ++ [⟨oldb, totalSize sz, false⟩],
               total_allocations := st1.total_allocations + 1 }))))

/-- What the corrected claim C8 asserts of `realloc` (for request sizes
whose header-padded total does not overflow `uint64_t`): null pointer acts
as `malloc`; size zero frees and returns null; a payload already large
enough returns the pointer with the state untouched; otherwise the grow path
allocates anew, marks the old header freed, decrements the live counter, and
the first `min(old payload, sz)` payload bytes read back unchanged through
the new pointer. -/
def C8Post (st : MState) (p sz : Nat) (b : MBlock) : Prop :=
  realloc st 0 sz = malloc st sz ∧
  (p ≠ 0 → realloc st p 0 = (none, free st p)) ∧
  (p ≠ 0 → sz ≠ 0 → findBlock st.blocks (p - HDRSIZE) = some b →
    (sz + HDRSIZE ≤ b.size → realloc st p sz = (some p, st)) ∧
    (b.size < sz + HDRSIZE →
      (∀ st1, malloc st sz = (none, st1) → realloc st p sz = (none, st1)) ∧
      (∀ np st1, malloc st sz = (some np, st1) →
         (realloc st p sz).1 = some np ∧
         (realloc st p sz).2.blocks = markFreedAt st1.blocks (p - HDRSIZE) ∧
         (realloc st p sz).2.total_allocations = st1.total_allocations - 1 ∧
         (∀ i, i < min (b.size - HDRSIZE) sz →
            (realloc st p sz).2.mem (np + i) = st.mem (p + i)))))

/-- What claim C9 asserts of `freepage`: null and out-of-range addresses and
already-free frames leave the table unchanged; otherwise exactly the
addressed frame's refcount is decremented, its owner becoming free exactly
when the count reaches zero, and the operation preserves the invariant
`refcount = 0 ↔ owner = free`. -/
def C9Post (ks : KState) (pa : Nat) : Prop :=
  let pn := pa / PAGESIZE
  (pa = 0 → freepage ks pa = ks) ∧
  (NPAGES ≤ pn → freepage ks pa = ks) ∧
  ((ks.pageinfo pn).refcount = 0 → freepage ks pa = ks) ∧
  (pa ≠ 0 → pn < NPAGES → 0 < (ks.pageinfo pn).refcount →
     (freepage ks pa).pageinfo pn =
       ⟨if (ks.pageinfo pn).refcount - 1 = 0 then 0 else (ks.pageinfo pn).owner,
        (ks.pageinfo pn).refcount - 1⟩ ∧
     (∀ q, q ≠ pn → (freepage ks pa).pageinfo q = ks.pageinfo q)) ∧
  ((∀ q, (ks.pageinfo q).refcount = 0 ↔ (ks.pageinfo q).owner = 0) →
     ∀ q, ((freepage ks pa).pageinfo q).refcount = 0 ↔
       ((freepage ks pa).pageinfo q).owner = 0)

/-- What claim C10 asserts of a double `free`: freeing a pointer whose block
is already marked freed decrements the live counter again and changes
nothing else, and in the concrete double-free scenario `c10state` the count
`heap_info` reports is below the number of non-freed headers in the list. -/
def C10Post (st : MState) (p : Nat) : Prop :=
  free st p = { st with total_allocations := st.total_allocations - 1 } ∧
  heap_info_num_allocs c10state < (countNonFreed c10state.blocks : Int)

/-! # Theorems -/

/-! ## The best-fit scan -/

theorem bestFitAux_some_ne_none (total : Nat) :
    ∀ (l : List MBlock) (b : MBlock) (minDiff : Nat),
      bestFitAux total l (some b) minDiff ≠ none := by
  intro l
  induction l with
  | nil => intro b m h; simp [bestFitAux] at h
  | cons c rest ih =>
    intro b m
    simp only [bestFitAux]
    split
    · exact ih c (c.size - total)
    · exact ih b m

theorem bestFitAux_none_spec (total : Nat) :
    ∀ (l : List MBlock) (minDiff : Nat),
      bestFitAux total l none minDiff = none →
      ∀ c ∈ l, ¬(c.freed = true ∧ total ≤ c.size ∧ c.size - total < minDiff) := by
  intro l
  induction l with
  | nil => intro m _ c hc; simp at hc
  | cons d rest ih =>
    intro m h c hc
    simp only [bestFitAux] at h
    by_cases hd : d.freed = true ∧ total ≤ d.size ∧ d.size - total < m
    · rw [if_pos hd] at h
      exact absurd h (bestFitAux_some_ne_none total rest d (d.size - total))
    · rw [if_neg hd] at h
      rcases List.mem_cons.mp hc with rfl | hcr
      · exact hd
      · exact ih m h c hcr

theorem bestFitAux_some_spec (total : Nat) :
    ∀ (l : List MBlock) (best : Option MBlock) (minDiff : Nat) (b : MBlock),
      (∀ b0, best = some b0 → b0.freed = true ∧ total ≤ b0.size ∧ minDiff = b0.size - total) →
      (best = none → minDiff = U64 - 1) →
      (∀ c ∈ l, c.size < U64 - 1) →
      bestFitAux total l best minDiff = some b →
      b.freed = true ∧ total ≤ b.size ∧ (b ∈ l ∨ best = some b) ∧
      (∀ c ∈ l, c.freed = true → total ≤ c.size → b.size ≤ c.size) ∧
      (∀ b0, best = some b0 → b.size ≤ b0.size) := by
  intro l
  induction l with
  | nil =>
    intro best minDiff b hinv _ _ h
    simp only [bestFitAux] at h
    obtain ⟨h1, h2, _⟩ := hinv b h
    refine ⟨h1, h2, Or.inr h, ?_, ?_⟩
    · intro c hc; simp at hc
    · intro b0 hb0
      rw [h] at hb0
      cases hb0
      exact le_refl _
  | cons d rest ih =>
    intro best minDiff b hinv hnone hsz h
    simp only [bestFitAux] at h
    by_cases hd : d.freed = true ∧ total ≤ d.size ∧ d.size - total < minDiff
    · rw [if_pos hd] at h
      obtain ⟨hf, hle, hmem, hmin, hvb⟩ := ih (some d) (d.size - total) b
        (by intro b0 e; cases e; exact ⟨hd.1, hd.2.1, rfl⟩)
        (by intro e; cases e)
        (fun c hc => hsz c (List.mem_cons_of_mem _ hc)) h
      refine ⟨hf, hle, ?_, ?_, ?_⟩
      · rcases hmem with hr | he
        · exact Or.inl (List.mem_cons_of_mem _ hr)
        · cases he; exact Or.inl (List.mem_cons_self _ _)
      · intro c hc hcf hcle
        rcases List.mem_cons.mp hc with rfl | hcr
        · exact hvb c rfl
        · exact hmin c hcr hcf hcle
      · intro b0 hb0
        obtain ⟨_, hb0le, hmd⟩ := hinv b0 hb0
        have h1 := hvb d rfl
        have h2 := hd.2.1
        have h3 := hd.2.2
        omega
    · rw [if_neg hd] at h
      obtain ⟨hf, hle, hmem, hmin, hvb⟩ := ih best minDiff b hinv hnone
        (fun c hc => hsz c (List.mem_cons_of_mem _ hc)) h
      refine ⟨hf, hle, ?_, ?_, hvb⟩
      · rcases hmem with hr | he
        · exact Or.inl (List.mem_cons_of_mem _ hr)
        · exact Or.inr he
      · intro c hc hcf hcle
        rcases List.mem_cons.mp hc with rfl | hcr
        · cases best with
          | none =>
            have h1 := hnone rfl
            have h2 := hsz c (List.mem_cons_self _ _)
            exfalso
            apply hd
            refine ⟨hcf, hcle, ?_⟩
            omega
          | some b0 =>
            obtain ⟨_, hb0le, hmd⟩ := hinv b0 rfl
            have h1 := hvb b0 rfl
            have h2 : ¬(c.size - total < minDiff) := fun hlt => hd ⟨hcf, hcle, hlt⟩
            omega
        · exact hmin c hcr hcf hcle

theorem bestFit_some_spec (l : List MBlock) (total : Nat) (b : MBlock)
    (hsz : ∀ c ∈ l, c.size < U64 - 1) (h : bestFit l total = some b) :
    b ∈ l ∧ b.freed = true ∧ total ≤ b.size ∧
    (∀ c ∈ l, c.freed = true → total ≤ c.size → b.size ≤ c.size) := by
  obtain ⟨hf, hle, hmem, hmin, _⟩ := bestFitAux_some_spec total l none (U64 - 1) b
    (by intro b0 e; cases e) (fun _ => rfl) hsz h
  rcases hmem with hm | he
  · exact ⟨hm, hf, hle, hmin⟩
  · cases he

theorem bestFit_none_spec (l : List MBlock) (total : Nat)
    (hsz : ∀ c ∈ l, c.size < U64 - 1) (h : bestFit l total = none) :
    ∀ c ∈ l, c.freed = true → c.size < total := by
  intro c hc hf
  by_contra hle
  push_neg at hle
  have hs := hsz c hc
  exact bestFitAux_none_spec total l (U64 - 1) h c hc ⟨hf, hle, by omega⟩

theorem usbrk_grow_spec (st : MState) (total oldb : Nat) (st1 : MState)
    (h : usbrk_grow st total = some (oldb, st1)) :
    oldb = st.heap_end ∧ st1 = { st with heap_end := (st.heap_end + total) % U64 } := by
  simp only [usbrk_grow] at h
  split at h
  · cases h
  · cases h
    exact ⟨rfl, rfl⟩

/-- C7: `malloc(0)` returns null; for `sz > 0` the request is rounded up to
a multiple of 8 plus the header, the freed block of smallest sufficient size
is selected if any (splitting exactly when the remainder leaves room for a
header plus 8 payload bytes, the lower part allocated and the upper part a
new freed block in place, returning the address just past the chosen
header), and otherwise the heap grows by the total via `sbrk` with the new
block appended not-free. -/
theorem c7_malloc (st : MState) (sz : Nat)
    (hsizes : ∀ b ∈ st.blocks, b.size < U64 - 1)
    (hsz : sz + 40 < U64) :
    C7Post st sz := by
  have hU : U64 = 18446744073709551616 := rfl
  have hH : HDRSIZE = 32 := rfl
  refine ⟨by simp [malloc], ?_⟩
  intro hpos
  have hne : ¬(sz = 0) := by omega
  have ht : totalSize sz = (sz + 7) / 8 * 8 + HDRSIZE := by
    have h1 : (sz + 7) % U64 = sz + 7 := Nat.mod_eq_of_lt (by omega)
    have h2 : (sz + 7) / 8 * 8 ≤ sz + 7 := Nat.div_mul_le_self _ _
    simp only [totalSize, alignSize, h1]
    exact Nat.mod_eq_of_lt (by omega)
  refine ⟨ht, ?_, ?_⟩
  · intro b hb
    obtain ⟨hmem, hf, hle, hmin⟩ := bestFit_some_spec _ _ _ hsizes hb
    have hm : malloc st sz =
        if totalSize sz + HDRSIZE + 8 ≤ b.size then
          (some (b.addr + HDRSIZE),
           { st with
               blocks := splice st.blocks b.addr
                 [⟨b.addr, totalSize sz, false⟩,
                  ⟨b.addr + totalSize sz, b.size - totalSize sz, true⟩],
               total_allocations := st.total_allocations + 1 })
        else
          (some (b.addr + HDRSIZE),
           { st with
               blocks := splice st.blocks b.addr [⟨b.addr, b.size, false⟩],
               total_allocations := st.total_allocations + 1 }) := by
      simp only [malloc, if_neg hne, hb]
    refine ⟨hmem, hf, hle, hmin, ?_, ?_, ?_, ?_, ?_⟩
    · rw [hm]; split <;> rfl
    · rw [hm]; split <;> rfl
    · rw [hm]; split <;> rfl
    · intro hsp; rw [hm, if_pos hsp]
    · intro hsp; rw [hm, if_neg (by omega)]
  · intro hn
    refine ⟨bestFit_none_spec _ _ hsizes hn, ?_⟩
    intro oldb st1 hg
    obtain ⟨ho, hst1⟩ := usbrk_grow_spec st (totalSize sz) oldb st1 hg
    refine ⟨ho, by rw [hst1], ?_⟩
    simp only [malloc, if_neg hne, hn, hg]

/-- Witness for C7 at a concrete heap: a freed 48-byte block and a live
40-byte block, request 8 bytes. -/
theorem c7_malloc_witness :
    (∀ b ∈ c7wState.blocks, b.size < U64 - 1) ∧ 8 + 40 < U64 ∧ C7Post c7wState 8 :=
  ⟨by decide, by decide, c7_malloc c7wState 8 (by decide) (by decide)⟩

theorem malloc_mem (st : MState) (sz : Nat) : (malloc st sz).2.mem = st.mem := by
  by_cases h0 : sz = 0
  · simp [malloc, h0]
  · cases hbf : bestFit st.blocks (totalSize sz) with
    | some b =>
      by_cases hs : totalSize sz + HDRSIZE + 8 ≤ b.size
      · simp [malloc, h0, hbf, hs]
      · simp [malloc, h0, hbf, hs]
    | none =>
      cases hg : usbrk_grow st (totalSize sz) with
      | none => simp [malloc, h0, hbf, hg]
      | some pr =>
        obtain ⟨oldb, st1⟩ := pr
        obtain ⟨-, hst1⟩ := usbrk_grow_spec st _ _ _ hg
        simp [malloc, h0, hbf, hg, hst1]

/-- C8 (amended): for request sizes with `sz + header < 2^64`, `realloc`
behaves as the claim states: null pointer acts as `malloc`, size zero frees
and returns null, a sufficient payload returns the pointer with no change,
and the grow path allocates, preserves `min(old payload, sz)` payload bytes
through the new pointer, and frees the old block. -/
theorem c8_realloc (st : MState) (p sz : Nat) (b : MBlock)
    (hsz : sz + HDRSIZE < U64) :
    C8Post st p sz b := by
  refine ⟨by simp [realloc], ?_, ?_⟩
  · intro hp; simp [realloc, hp]
  · intro hp hsz0 hfb
    have hmod : (sz + HDRSIZE) % U64 = sz + HDRSIZE := Nat.mod_eq_of_lt hsz
    constructor
    · intro hfits
      have hc : (sz + HDRSIZE) % U64 ≤ b.size := by rw [hmod]; exact hfits
      simp [realloc, hp, hsz0, hfb, hc]
    · intro hsmall
      have hc : ¬((sz + HDRSIZE) % U64 ≤ b.size) := by rw [hmod]; omega
      constructor
      · intro st1 hmal
        simp [realloc, hp, hsz0, hfb, hc, hmal]
      · intro np st1 hmal
        have hmm : st1.mem = st.mem := by
          have h := malloc_mem st sz
          rw [hmal] at h
          exact h
        have hre : realloc st p sz =
            (some np,
             free { st1 with
                 mem := fun a =>
                   if np ≤ a ∧ a < np + (b.size - HDRSIZE) then st1.mem (a - np + p)
                   else st1.mem a } p) := by
          simp [realloc, hp, hsz0, hfb, hc, hmal]
        refine ⟨by rw [hre], ?_, ?_, ?_⟩
        · rw [hre]; simp [free, hp]
        · rw [hre]; simp [free, hp]
        · intro i hi
          rw [hre]
          simp only [free, if_neg hp]
          show (fun a =>
              if np ≤ a ∧ a < np + (b.size - HDRSIZE) then st1.mem (a - np + p)
              else st1.mem a) (np + i) = st.mem (p + i)
          simp only
          rw [if_pos (by omega)]
          have he : np + i - np + p = p + i := by omega
          rw [he, hmm]

/-- Counterexample to C8 as stated: with a single live block of payload 8 at
pointer 96, `realloc(96, 2^64 - 1)` must (per the claim, since the payload
does not accommodate the size) allocate a new block, copy, and free the old
pointer — but the C comparison `block->size >= sz + sizeof(free_block)`
wraps (`(2^64 - 1 + 32) mod 2^64 = 31 ≤ 40`), so the code returns the old
pointer with the heap completely unchanged and the block still not freed. -/
theorem c8_counterexample :
    (realloc c8cexState 96 (U64 - 1)).1 = some 96 ∧
    (realloc c8cexState 96 (U64 - 1)).2.blocks = [⟨64, 40, false⟩] ∧
    (realloc c8cexState 96 (U64 - 1)).2.total_allocations = 1 ∧
    40 - HDRSIZE < U64 - 1 := by decide

/-- Witness for the amended C8 at a concrete heap: growing the lone 8-byte
payload block to 16 bytes. -/
theorem c8_realloc_witness :
    16 + HDRSIZE < U64 ∧ C8Post c8wState 96 16 ⟨64, 40, false⟩ :=
  ⟨by decide, c8_realloc c8wState 96 16 ⟨64, 40, false⟩ (by decide)⟩

/-! ## Defrag and the free-list invariant -/

theorem defragAux_head (b : MBlock) (l : List MBlock) :
    ∃ b1 tail, (defragAux b l).1 = b1 :: tail ∧ b1.addr = b.addr ∧ b1.freed = b.freed := by
  induction l generalizing b with
  | nil => exact ⟨b, [], rfl, rfl, rfl⟩
  | cons c rest ih =>
    simp only [defragAux]
    split
    · obtain ⟨b1, tail, he, ha, hf⟩ := ih ⟨b.addr, b.size + c.size, b.freed⟩
      exact ⟨b1, tail, he, ha, hf⟩
    · exact ⟨b, (defragAux c rest).1, rfl, rfl, rfl⟩

theorem defragAux_noAdj (b : MBlock) (l : List MBlock) :
    noAdjFreed (defragAux b l).1 = true := by
  induction l generalizing b with
  | nil => rfl
  | cons c rest ih =>
    simp only [defragAux]
    split
    · exact ih _
    · rename_i hcond
      obtain ⟨c1, tail, he, ha, hf⟩ := defragAux_head c rest
      have h2 := ih c
      rw [he] at h2 ⊢
      simp only [noAdjFreed, h2, Bool.and_true]
      rw [ha, hf]
      by_cases had : b.addr + b.size = c.addr
      · cases hb2 : b.freed <;> cases hc2 : c.freed <;> simp [had]
        exact absurd ⟨hb2, hc2, had⟩ hcond
      · simp [had]

theorem defragAux_sorted (b : MBlock) (l : List MBlock)
    (h : sortedAddr (b :: l) = true) : sortedAddr (defragAux b l).1 = true := by
  induction l generalizing b with
  | nil => rfl
  | cons c rest ih =>
    simp only [defragAux]
    split
    · apply ih ⟨b.addr, b.size + c.size, b.freed⟩
      cases rest with
      | nil => rfl
      | cons d rest2 =>
        simp only [sortedAddr, Bool.and_eq_true, decide_eq_true_eq] at h ⊢
        exact ⟨by omega, h.2.2⟩
    · obtain ⟨c1, tail, he, ha, hf⟩ := defragAux_head c rest
      have hs : sortedAddr (defragAux c rest).1 = true := by
        apply ih c
        simp only [sortedAddr, Bool.and_eq_true] at h
        exact h.2
      rw [he] at hs ⊢
      simp only [sortedAddr, Bool.and_eq_true, decide_eq_true_eq] at h ⊢
      exact ⟨by rw [ha]; exact h.1, hs⟩

theorem defragPass_noAdj (l : List MBlock) : noAdjFreed (defragPass l).1 = true := by
  cases l with
  | nil => rfl
  | cons b rest => exact defragAux_noAdj b rest

theorem defragPass_sorted (l : List MBlock) (h : sortedAddr l = true) :
    sortedAddr (defragPass l).1 = true := by
  cases l with
  | nil => rfl
  | cons b rest => exact defragAux_sorted b rest h

theorem defragLoop_noAdj (fuel : Nat) (l : List MBlock) (hf : 0 < fuel) :
    noAdjFreed (defragLoop fuel l) = true := by
  induction fuel generalizing l with
  | zero => omega
  | succ n ih =>
    simp only [defragLoop]
    cases hp : defragPass l with
    | mk l1 m =>
      have hn := defragPass_noAdj l
      rw [hp] at hn
      cases m
      · exact hn
      · simp only
        cases n with
        | zero => simpa [defragLoop] using hn
        | succ k => exact ih _ (by omega)

theorem defragLoop_sorted (fuel : Nat) (l : List MBlock) (h : sortedAddr l = true) :
    sortedAddr (defragLoop fuel l) = true := by
  induction fuel generalizing l with
  | zero => exact h
  | succ n ih =>
    simp only [defragLoop]
    cases hp : defragPass l with
    | mk l1 m =>
      have hs := defragPass_sorted l h
      rw [hp] at hs
      cases m
      · exact hs
      · exact ih _ hs

theorem markFreedAt_head_addr (c : MBlock) (r : List MBlock) (a : Nat) :
    ∃ c1 tail, markFreedAt (c :: r) a = c1 :: tail ∧ c1.addr = c.addr := by
  simp only [markFreedAt]
  by_cases hc : c.addr = a
  · exact ⟨⟨c.addr, c.size, true⟩, r, by rw [if_pos hc], rfl⟩
  · exact ⟨c, markFreedAt r a, by rw [if_neg hc], rfl⟩

theorem markFreedAt_sorted : ∀ (l : List MBlock) (a : Nat),
    sortedAddr l = true → sortedAddr (markFreedAt l a) = true := by
  intro l
  induction l with
  | nil => intro a h; exact h
  | cons b rest ih =>
    intro a h
    simp only [markFreedAt]
    by_cases hb : b.addr = a
    · rw [if_pos hb]
      cases rest with
      | nil => rfl
      | cons c rest2 =>
        simp only [sortedAddr, Bool.and_eq_true, decide_eq_true_eq] at h ⊢
        exact h
    · rw [if_neg hb]
      cases rest with
      | nil => rfl
      | cons c rest2 =>
        simp only [sortedAddr, Bool.and_eq_true, decide_eq_true_eq] at h
        have ht := ih a h.2
        obtain ⟨c1, tail, he, ha⟩ := markFreedAt_head_addr c rest2 a
        rw [he] at ht ⊢
        simp only [sortedAddr, Bool.and_eq_true, decide_eq_true_eq] at ht ⊢
        exact ⟨by rw [ha]; exact h.1, ht⟩

/-- C4 (amended): `free` keeps the headers in strict address order, and
`defrag` both keeps the order and leaves no two list-adjacent freed blocks
physically adjacent; `free` itself does not coalesce. -/
theorem c4_free_defrag (st : MState) (p : Nat) (h : sortedAddr st.blocks = true) :
    C4Post st p := by
  refine ⟨?_, defragLoop_sorted _ _ h, defragLoop_noAdj _ _ (by omega)⟩
  by_cases hp : p = 0
  · simp [free, hp, h]
  · simp only [free, if_neg hp]
    exact markFreedAt_sorted _ _ h

/-- Counterexample to C4 as stated: after
`malloc(8); malloc(8); free(first); free(second)` the two 40-byte blocks at
`0x100000` and `0x100028` are consecutive in the list, both freed, and
physically adjacent — `free` performed no coalescing, because both blocks
were already linked and the function returns before its insertion and
coalescing code (malloc.c:58-61). -/
theorem c4_counterexample :
    noAdjFreed c4state.blocks = false ∧ sortedAddr c4state.blocks = true := by decide

/-- Witness for the amended C4 at the concrete double-freed heap. -/
theorem c4_free_defrag_witness :
    sortedAddr c4state.blocks = true ∧ C4Post c4state 0x100020 :=
  ⟨by decide, c4_free_defrag c4state 0x100020 (by decide)⟩

/-! ## The live-allocation counter -/

theorem markFreedAt_of_freed : ∀ (l : List MBlock) (a : Nat) (b : MBlock),
    findBlock l a = some b → b.freed = true → markFreedAt l a = l := by
  intro l
  induction l with
  | nil => intro a b h; simp [findBlock] at h
  | cons c rest ih =>
    intro a b h hf
    by_cases hc : c.addr = a
    · have hcb : c = b := by
        have := List.find?_cons_of_pos (p := fun x => decide (x.addr = a)) rest
          (by simpa using hc)
        rw [findBlock, this] at h
        exact Option.some.inj h
      subst hcb
      simp only [markFreedAt, if_pos hc]
      obtain ⟨ca, cs, cf⟩ := c
      simp only at hf
      rw [hf]
    · simp only [markFreedAt, if_neg hc]
      congr 1
      apply ih a b ?_ hf
      have := List.find?_cons_of_neg (p := fun x => decide (x.addr = a)) rest
        (by simpa using hc)
      rw [findBlock, this] at h
      exact h

/-- C10: freeing a pointer whose block is already marked freed decrements
the live counter again and changes nothing else, and in the concrete
double-free scenario the count `heap_info` reports (a copy of the counter)
is below the number of non-freed headers in the list. -/
theorem c10_double_free (st : MState) (p : Nat) (b : MBlock)
    (hp : p ≠ 0) (hb : findBlock st.blocks (p - HDRSIZE) = some b)
    (hf : b.freed = true) :
    C10Post st p := by
  constructor
  · simp only [free, if_neg hp]
    rw [markFreedAt_of_freed st.blocks (p - HDRSIZE) b hb hf]
  · decide

/-- Witness for C10: the double-free scenario itself (a third `free` of the
already-freed first block). -/
theorem c10_double_free_witness :
    (0x100020 : Nat) ≠ 0 ∧
    findBlock c10state.blocks (0x100020 - HDRSIZE) = some ⟨0x100000, 40, true⟩ ∧
    C10Post c10state 0x100020 :=
  ⟨by decide, by decide,
   c10_double_free c10state 0x100020 ⟨0x100000, 40, true⟩ (by decide) (by decide)
     (by decide)⟩

/-! ## freepage -/

theorem freepageInfo_id_of_zero (pi : Nat → PhysPageInfo) : freepageInfo pi 0 = pi := rfl

theorem freepageInfo_cases (pi : Nat → PhysPageInfo) (pa : Nat) (h0 : pa ≠ 0) :
    (NPAGES ≤ pa / PAGESIZE → freepageInfo pi pa = pi) ∧
    (pa / PAGESIZE < NPAGES → (pi (pa / PAGESIZE)).refcount = 0 → freepageInfo pi pa = pi) ∧
    (pa / PAGESIZE < NPAGES → 0 < (pi (pa / PAGESIZE)).refcount →
      freepageInfo pi pa = fun q =>
        if q = pa / PAGESIZE then
          ⟨if (pi (pa / PAGESIZE)).refcount - 1 = 0 then 0 else (pi (pa / PAGESIZE)).owner,
           (pi (pa / PAGESIZE)).refcount - 1⟩
        else pi q) := by
  have hpn : pa / PAGESIZE * PAGESIZE / PAGESIZE = pa / PAGESIZE :=
    Nat.mul_div_cancel _ (by norm_num [PAGESIZE])
  unfold freepageInfo
  rw [if_neg h0]
  simp only [hpn]
  refine ⟨fun h => by rw [if_pos h], fun h hrc => ?_, fun h hrc => ?_⟩
  · rw [if_neg (by omega), if_neg (by omega)]
  · rw [if_neg (by omega), if_pos hrc]

/-- C9: `freepage` is a no-op on a null address, an out-of-range frame
number, or an already-free frame; otherwise it decrements exactly the
addressed frame's refcount, setting the owner free exactly when the count
reaches zero, and it preserves the invariant `refcount = 0 ↔ owner = free`. -/
theorem c9_freepage (ks : KState) (pa : Nat) : C9Post ks pa := by
  unfold C9Post
  refine ⟨fun h => by subst h; rfl, ?_, ?_, ?_, ?_⟩
  · intro h
    by_cases h0 : pa = 0
    · subst h0; rfl
    · have he := (freepageInfo_cases ks.pageinfo pa h0).1 h
      unfold freepage
      rw [he]
  · intro h
    by_cases h0 : pa = 0
    · subst h0; rfl
    · by_cases h1 : NPAGES ≤ pa / PAGESIZE
      · have he := (freepageInfo_cases ks.pageinfo pa h0).1 h1
        unfold freepage
        rw [he]
      · have he := (freepageInfo_cases ks.pageinfo pa h0).2.1 (by omega) h
        unfold freepage
        rw [he]
  · intro h0 h1 h2
    have he := (freepageInfo_cases ks.pageinfo pa h0).2.2 h1 h2
    constructor
    · show (freepage ks pa).pageinfo (pa / PAGESIZE) = _
      unfold freepage
      simp only [he]
      simp
    · intro q hq
      show (freepage ks pa).pageinfo q = ks.pageinfo q
      unfold freepage
      simp only [he]
      rw [if_neg hq]
  · intro hinv q
    by_cases h0 : pa = 0
    · have he : freepage ks pa = ks := by subst h0; rfl
      rw [he]
      exact hinv q
    · by_cases h1 : NPAGES ≤ pa / PAGESIZE
      · have he := (freepageInfo_cases ks.pageinfo pa h0).1 h1
        unfold freepage
        simp only [he]
        exact hinv q
      · by_cases h2 : 0 < (ks.pageinfo (pa / PAGESIZE)).refcount
        · have he := (freepageInfo_cases ks.pageinfo pa h0).2.2 (by omega) h2
          unfold freepage
          simp only [he]
          by_cases hq : q = pa / PAGESIZE
          · rw [if_pos hq]
            by_cases hz : (ks.pageinfo (pa / PAGESIZE)).refcount - 1 = 0
            · simp [hz]
            · simp only [if_neg hz]
              constructor
              · intro hc; exact absurd hc hz
              · intro how
                have h3 : (ks.pageinfo (pa / PAGESIZE)).refcount = 0 := (hinv _).mpr how
                omega
          · rw [if_neg hq]
            exact hinv q
        · have he := (freepageInfo_cases ks.pageinfo pa h0).2.1 (by omega) (by omega)
          unfold freepage
          simp only [he]
          exact hinv q

/-- Witness for C9 at a frame-table with frame 5 at refcount 2: releasing
physical address `0x5000`. -/
theorem c9_freepage_witness : C9Post ksC9w 0x5000 := c9_freepage ksC9w 0x5000

/-! ## syscall_mapping -/

theorem writeVamRecord_props (ks : KState) (root pa rsi : Nat) :
    (∀ i < sizeofVamapping,
       (writeVamRecord ks root pa rsi).mem (pa + i) = encodeVam (vm_lookup ks root rsi) i) ∧
    (∀ a, a < pa ∨ pa + sizeofVamapping ≤ a → (writeVamRecord ks root pa rsi).mem a = ks.mem a) ∧
    (writeVamRecord ks root pa rsi).tables = ks.tables ∧
    (writeVamRecord ks root pa rsi).pageinfo = ks.pageinfo := by
  refine ⟨?_, ?_, rfl, rfl⟩
  · intro i hi
    show (if pa ≤ pa + i ∧ pa + i < pa + sizeofVamapping
          then encodeVam (vm_lookup ks root rsi) (pa + i - pa)
          else ks.mem (pa + i)) = encodeVam (vm_lookup ks root rsi) i
    rw [if_pos (by omega)]
    congr 1
    omega
  · intro a ha
    show (if pa ≤ a ∧ a < pa + sizeofVamapping
          then encodeVam (vm_lookup ks root rsi) (a - pa)
          else ks.mem a) = ks.mem a
    rw [if_neg (by omega)]

/-- C5 (amended): the record is written after checking write+user on the
first byte's page and — only when the page number of
`dst + sizeof(vamapping) - 1` differs from the page number of the *queried*
address — write+present (not write+user) on the end address's page; a failed
check returns silently with no write, and a successful one writes exactly
the 24 record bytes at the destination's physical address. -/
theorem c5_syscall_mapping (ks : KState) (root rdi rsi : Nat) : C5Post ks root rdi rsi := by
  unfold C5Post
  refine ⟨?_, ?_, ?_⟩
  · intro h
    simp only [syscall_mapping, if_pos h]
  · intro h1 h2 h3
    simp only [syscall_mapping, if_neg (not_not_intro h1), if_pos h2, if_pos h3]
  · intro h1 h2
    simp only [syscall_mapping, if_neg (not_not_intro h1)]
    rcases h2 with h2 | h2
    · rw [if_neg (not_not_intro h2)]
      exact writeVamRecord_props ks root (vm_lookup ks root rdi).pa rsi
    · by_cases hpage : (rdi + sizeofVamapping - 1) / 4096 ≠ rsi / 4096
      · rw [if_pos hpage, if_neg (not_not_intro h2)]
        exact writeVamRecord_props ks root (vm_lookup ks root rdi).pa rsi
      · rw [if_neg hpage]
        exact writeVamRecord_props ks root (vm_lookup ks root rdi).pa rsi

/-- Counterexample to C5 as stated: destination buffer `0x41FF0`, queried
address `0x42000`.  The buffer's last 8 bytes lie in virtual page `0x42000`,
which has no mapping at all (in particular it is not user-writable), yet the
kernel writes the record: the end-of-buffer check is skipped entirely
because `PAGENUMBER(dst + 23) = 0x42` equals the page number of the
*queried* address (kernel.c:268 compares against `ptr`, not the buffer), so
no verification of the entire buffer ever happens.  The first record byte
(`pn = -1`, i.e. `0xFF`) lands at physical `0x5FF0`. -/
theorem c5_counterexample :
    (syscall_mapping ksC5x 1 0x41FF0 0x42000).mem 0x5FF0 = 0xFF ∧
    ksC5x.mem 0x5FF0 = 0 ∧
    (vm_lookup ksC5x 1 (0x41FF0 + sizeofVamapping - 1)).perm &&& PTE_U = 0 := by decide

/-- Witness for the amended C5: a fully user-writable single-page write. -/
theorem c5_syscall_mapping_witness : C5Post ksC5w 1 0x41000 0x41100 :=
  c5_syscall_mapping ksC5w 1 0x41000 0x41100

/-! ## The panic system call -/

/-- C6 (amended): the panic system call halts on every path; a null message
pointer halts with no message; otherwise the kernel does one lookup of the
pointer and reads 160 physically contiguous bytes from that physical
address — no permission check and no second-page translation — and the
message has exactly 160 bytes. -/
theorem c6_int_sys_panic (ks : KState) (root rdi : Nat) : C6Post ks root rdi := by
  unfold C6Post
  refine ⟨fun h => by simp [int_sys_panic, h], fun h => by simp [int_sys_panic, h], ?_, ?_⟩
  · by_cases h : rdi = 0
    · exact ⟨none, by simp [int_sys_panic, h]⟩
    · exact ⟨some ((List.range 160).map (fun i => ks.mem ((vm_lookup ks root rdi).pa + i))),
        by simp [int_sys_panic, h]⟩
  · intro l hl
    by_cases h : rdi = 0
    · simp [int_sys_panic, h, excMsg] at hl
    · simp only [int_sys_panic, if_neg h, excMsg] at hl
      cases hl
      simp

/-- Counterexample to C6 as stated: message pointer `0x41FF0`, so the
160-byte window spans virtual pages `0x41000` and `0x42000`.  The second
page has no mapping (pn sentinel `-1`), so the claimed permission check must
fail — and even setting permissions aside, the claimed two-page read is
impossible — yet the code halts with a full message whose 17th byte (window
offset 16, virtual address `0x42000`) was read from physical `0x6000`, the
byte physically following frame 5, through no mapping at all. -/
theorem c6_counterexample :
    (vm_lookup ksC6x 1 0x42000).pn = -1 ∧
    (excMsg (int_sys_panic ksC6x 1 0x41FF0)).isSome = true ∧
    ((excMsg (int_sys_panic ksC6x 1 0x41FF0)).getD []).get? 16 = some 0xBB ∧
    ksC6x.mem 0x6000 = 0xBB ∧
    panic_read_spec ksC6x 1 0x41FF0 = none := by decide

/-- Witness for the amended C6: a message wholly inside the mapped page. -/
theorem c6_int_sys_panic_witness : C6Post ksC6w 1 0x41000 :=
  c6_int_sys_panic ksC6w 1 0x41000
/-! ## sbrk and its system call -/

theorem unmap_status (ks : KState) (root va : Nat) :
    (virtual_memory_unmap ks root va).2 = 0 := by
  by_cases hpn : (vm_lookup ks root va).pn = -1
  · simp only [virtual_memory_unmap]
    rw [if_pos hpn]
  · have h3 : ¬(ks.tables root (idx3 va) % 2 = 0) := by
      intro h
      apply hpn
      simp only [vm_lookup]
      rw [if_pos h]
      rfl
    have h2 : ¬(ks.tables (ks.tables root (idx3 va) / 4096) (idx2 va) % 2 = 0) := by
      intro h
      apply hpn
      simp only [vm_lookup]
      rw [if_neg h3, if_pos h]
      rfl
    have h1 : ¬(ks.tables (ks.tables (ks.tables root (idx3 va) / 4096) (idx2 va) / 4096)
        (idx1 va) % 2 = 0) := by
      intro h
      apply hpn
      simp only [vm_lookup]
      rw [if_neg h3, if_neg h2, if_pos h]
      rfl
    have h3' : ks.tables root (idx3 va) % 2 = 1 := by omega
    have h2' : ks.tables (ks.tables root (idx3 va) / 4096) (idx2 va) % 2 = 1 := by omega
    have h1' : ks.tables (ks.tables (ks.tables root (idx3 va) / 4096) (idx2 va) / 4096)
        (idx1 va) % 2 = 1 := by omega
    have hmap : vm_map ks 0 root va 0 0 =
        (setEntry ks (ks.tables (ks.tables (ks.tables root (idx3 va) / 4096) (idx2 va) / 4096)
            (idx1 va) / 4096) (idx0 va) 0, 0) := by
      simp [vm_map, ensureTable, h3', h2', h1']
    simp only [virtual_memory_unmap]
    rw [if_neg hpn, hmap]
    simp only
    norm_num
    split <;> rfl

theorem shrinkPages_snd (root : Nat) :
    ∀ (l : List Nat) (ks : KState), (shrinkPages root ks l).2 = 0 := by
  intro l
  induction l with
  | nil => intro ks; rfl
  | cons a rest ih =>
    intro ks
    simp only [shrinkPages]
    cases hu : virtual_memory_unmap ks root a with
    | mk ks1 r =>
      have hr := unmap_status ks root a
      rw [hu] at hr
      simp only at hr
      subst hr
      rw [if_neg (by norm_num)]
      exact ih ks1

theorem sbrk_spec (ks : KState) (p : Proc) (difference : Nat) :
    (((p.program_break + difference) % U64 < p.original_break ∨
        MEMSIZE_VIRTUAL - PAGESIZE ≤ (p.program_break + difference) % U64) →
       sbrk ks p difference = (ks, p, -1)) ∧
    (¬((p.program_break + difference) % U64 < p.original_break ∨
        MEMSIZE_VIRTUAL - PAGESIZE ≤ (p.program_break + difference) % U64) →
       (sbrk ks p difference).2.1 =
         { p with program_break := (p.program_break + difference) % U64 } ∧
       (sbrk ks p difference).2.2 = 0) := by
  constructor
  · intro h
    simp only [sbrk]
    rw [if_pos h]
  · intro h
    simp only [sbrk]
    rw [if_neg h]
    by_cases hg : p.program_break < (p.program_break + difference) % U64
    · rw [if_pos hg]
      exact ⟨rfl, rfl⟩
    · rw [if_neg hg]
      by_cases hs : (p.program_break + difference) % U64 < p.program_break
      · rw [if_pos hs]
        cases hu : shrinkPages p.pagetable ks
            (pageRange (ROUNDUP_PAGE ((p.program_break + difference) % U64))
              (ROUNDUP_PAGE p.program_break)) with
        | mk ks1 r =>
          have hr := shrinkPages_snd p.pagetable
            (pageRange (ROUNDUP_PAGE ((p.program_break + difference) % U64))
              (ROUNDUP_PAGE p.program_break)) ks
          rw [hu] at hr
          simp only at hr
          subst hr
          rw [if_neg (by norm_num)]
          exact ⟨rfl, rfl⟩
      · rw [if_neg hs]
        have he : (p.program_break + difference) % U64 = p.program_break := by omega
        refine ⟨?_, rfl⟩
        rw [he]

theorem sbrk_arith (pb orig rdi : Nat) (h1 : rdi < U64) (h2 : pb < MEMSIZE_VIRTUAL) :
    (((orig : Int) ≤ (pb : Int) + intptrOfUInt64 rdi ∧
        (pb : Int) + intptrOfUInt64 rdi < ((MEMSIZE_VIRTUAL - PAGESIZE : Nat) : Int)) ↔
      ¬((pb + rdi) % U64 < orig ∨ MEMSIZE_VIRTUAL - PAGESIZE ≤ (pb + rdi) % U64)) ∧
    (¬((pb + rdi) % U64 < orig ∨ MEMSIZE_VIRTUAL - PAGESIZE ≤ (pb + rdi) % U64) →
      (((pb + rdi) % U64 : Nat) : Int) = (pb : Int) + intptrOfUInt64 rdi) := by
  have e1 : U64 = 18446744073709551616 := rfl
  have e3 : MEMSIZE_VIRTUAL - PAGESIZE = 3141632 := rfl
  have e2 : MEMSIZE_VIRTUAL = 3145728 := rfl
  have h63 : (2 : Nat) ^ 63 = 9223372036854775808 := by norm_num
  rw [e1] at h1
  rw [e2] at h2
  unfold intptrOfUInt64
  rw [e1, e3]
  by_cases hsign : rdi < 2 ^ 63
  · rw [if_pos hsign]
    rw [h63] at hsign
    constructor
    · omega
    · intro h
      omega
  · rw [if_neg hsign]
    rw [h63] at hsign
    constructor
    · omega
    · intro h
      omega

/-- C2: the `sbrk` system call returns the old break and moves the break to
`old + delta` exactly when `original_break ≤ old + delta` and `old + delta`
is strictly below the top of the user address space minus one page;
otherwise it returns `(uintptr_t)-1` with the kernel state (page mappings)
and the process unchanged. -/
theorem c2_int_sys_sbrk (ks : KState) (p : Proc) (rdi : Nat)
    (h1 : rdi < U64) (h2 : p.program_break < MEMSIZE_VIRTUAL) :
    C2Post ks p rdi := by
  obtain ⟨hiff, hval⟩ := sbrk_arith p.program_break p.original_break rdi h1 h2
  unfold C2Post
  constructor
  · intro hok
    have hguard := hiff.mp hok
    obtain ⟨hst, hr0⟩ := (sbrk_spec ks p rdi).2 hguard
    simp only [int_sys_sbrk]
    cases hs : sbrk ks p rdi with
    | mk ks1 pr =>
      obtain ⟨p1, r⟩ := pr
      rw [hs] at hst hr0
      simp only at hst hr0
      subst hr0
      rw [if_neg (by norm_num)]
      subst hst
      exact ⟨rfl, by rw [hval hguard], rfl, rfl⟩
  · intro hbad
    have hguard : (p.program_break + rdi) % U64 < p.original_break ∨
        MEMSIZE_VIRTUAL - PAGESIZE ≤ (p.program_break + rdi) % U64 := by
      by_contra hn
      exact hbad (hiff.mpr hn)
    have hs := (sbrk_spec ks p rdi).1 hguard
    simp only [int_sys_sbrk]
    rw [hs]
    simp only
    rw [if_pos (by norm_num)]

/-- Witness for C2: growing the break of a process at `0x101000` by one
page. -/
theorem c2_int_sys_sbrk_witness :
    4096 < U64 ∧ pC2w.program_break < MEMSIZE_VIRTUAL ∧ C2Post ksC2w pC2w 4096 :=
  ⟨by decide, by decide, c2_int_sys_sbrk ksC2w pC2w 4096 (by decide) (by decide)⟩

/-! ## The page-fault handler: supporting lemmas -/

theorem land_mod_two_pow (x y n : Nat) :
    (x &&& y) % 2 ^ n = (x % 2 ^ n) &&& (y % 2 ^ n) := by
  apply Nat.eq_of_testBit_eq
  intro i
  simp only [Nat.testBit_mod_two_pow, Nat.testBit_land]
  by_cases h : i < n <;> simp [h]

theorem land_4095 (x : Nat) : x &&& 4095 = x % 4096 := by
  have h1 : (4095 : Nat) = 2 ^ 12 - 1 := by norm_num
  have h2 : (4096 : Nat) = 2 ^ 12 := by norm_num
  rw [h1, h2, Nat.and_pow_two_sub_one_eq_mod]

theorem perm_and_seven (a b c d : Nat) (ha : a % 4096 = 7) (hb : b % 4096 = 7)
    (hc : c % 4096 = 7) (hd : d % 4096 = 7) : a &&& b &&& c &&& d &&& 4095 = 7 := by
  have h2 : (4096 : Nat) = 2 ^ 12 := by norm_num
  rw [land_4095, h2, land_mod_two_pow, land_mod_two_pow, land_mod_two_pow, ← h2,
    ha, hb, hc, hd]
  decide

theorem setEntry_tables (ks : KState) (f i e g j : Nat) :
    (setEntry ks f i e).tables g j = if g = f ∧ j = i then e else ks.tables g j := rfl

theorem setEntry_pageinfo (ks : KState) (f i e : Nat) :
    (setEntry ks f i e).pageinfo = ks.pageinfo := rfl

theorem setEntry_mem (ks : KState) (f i e : Nat) :
    (setEntry ks f i e).mem = ks.mem := rfl

theorem zeroFrameTable_tables (ks : KState) (f g j : Nat) :
    (zeroFrameTable ks f).tables g j = if g = f then 0 else ks.tables g j := rfl

theorem zeroFrameTable_pageinfo (ks : KState) (f : Nat) :
    (zeroFrameTable ks f).pageinfo = ks.pageinfo := rfl

theorem zeroFrameTable_mem (ks : KState) (f : Nat) :
    (zeroFrameTable ks f).mem = ks.mem := rfl

theorem setPageinfo_pageinfo (ks : KState) (pn : Nat) (v : PhysPageInfo) (q : Nat) :
    (setPageinfo ks pn v).pageinfo q = if q = pn then v else ks.pageinfo q := rfl

theorem setPageinfo_tables (ks : KState) (pn : Nat) (v : PhysPageInfo) :
    (setPageinfo ks pn v).tables = ks.tables := rfl

theorem setPageinfo_mem (ks : KState) (pn : Nat) (v : PhysPageInfo) :
    (setPageinfo ks pn v).mem = ks.mem := rfl

theorem memsetPage_tables (ks : KState) (pa : Nat) :
    (memsetPage ks pa).tables = ks.tables := rfl

theorem memsetPage_pageinfo (ks : KState) (pa : Nat) :
    (memsetPage ks pa).pageinfo = ks.pageinfo := rfl

theorem freepage_tables (ks : KState) (pa : Nat) :
    (freepage ks pa).tables = ks.tables := rfl

theorem freepage_mem (ks : KState) (pa : Nat) :
    (freepage ks pa).mem = ks.mem := rfl

theorem palloc_spec (ks : KState) (owner : Int) (ks1 : KState) (pa : Nat)
    (h : palloc ks owner = some (ks1, pa)) :
    pa = pa / 4096 * 4096 ∧ pa / 4096 < NPAGES ∧
    (ks.pageinfo (pa / 4096)).refcount = 0 ∧
    ks1 = setPageinfo ks (pa / 4096) ⟨owner, 1⟩ := by
  unfold palloc at h
  cases hf : (List.range NPAGES).find? (fun pn => (ks.pageinfo pn).refcount = 0) with
  | none => rw [hf] at h; cases h
  | some pn =>
    rw [hf] at h
    simp only [Option.some.injEq, Prod.mk.injEq] at h
    obtain ⟨hks, hpa⟩ := h
    have hmem := List.mem_range.mp (List.mem_of_find?_eq_some hf)
    have hp := List.find?_some hf
    have hrc : (ks.pageinfo pn).refcount = 0 := by simpa using hp
    have hdiv : pa / 4096 = pn := by omega
    rw [hdiv]
    exact ⟨by omega, hmem, hrc, hks.symm⟩

theorem palloc_none_rc (ks : KState) (owner : Int) (pn : Nat)
    (h : palloc ks owner = none) (hpn : pn < NPAGES) :
    0 < (ks.pageinfo pn).refcount := by
  unfold palloc at h
  cases hf : (List.range NPAGES).find? (fun pn => (ks.pageinfo pn).refcount = 0) with
  | none =>
    have := List.find?_eq_none.mp hf pn (List.mem_range.mpr hpn)
    simp only [decide_eq_true_eq] at this
    omega
  | some q => rw [hf] at h; cases h

theorem ensureTable_present (ks : KState) (o : Int) (f i : Nat)
    (h : ks.tables f i % 2 = 1) :
    ensureTable ks o f i = (ks, some (ks.tables f i / 4096)) := by
  unfold ensureTable
  rw [if_pos h]

theorem ensureTable_absent_none (ks : KState) (o : Int) (f i : Nat)
    (h : ks.tables f i % 2 = 0) (hp : palloc ks o = none) :
    ensureTable ks o f i = (ks, none) := by
  unfold ensureTable
  rw [if_neg (by omega), hp]

theorem ensureTable_absent_some (ks : KState) (o : Int) (f i : Nat)
    (ks1 : KState) (pa2 : Nat)
    (h : ks.tables f i % 2 = 0) (hp : palloc ks o = some (ks1, pa2)) :
    ensureTable ks o f i =
      (setEntry (zeroFrameTable ks1 (pa2 / 4096)) f i (pa2 + 7), some (pa2 / 4096)) := by
  unfold ensureTable
  rw [if_neg (by omega), hp]

theorem vm_map_fresh (s0 : KState) (owner : Int) (root va pa : Nat)
    (hwf : wfWalk s0 root va)
    (hva : va % 4096 = 0) (hpa : pa % 4096 = 0)
    (hrcpa : 0 < (s0.pageinfo (pa / 4096)).refcount) :
    (vm_map s0 owner root va pa 7).1.mem = s0.mem ∧
    (vm_map s0 owner root va pa 7).1.pageinfo (pa / 4096) = s0.pageinfo (pa / 4096) ∧
    ((vm_map s0 owner root va pa 7).2 = 0 →
       vm_lookup (vm_map s0 owner root va pa 7).1 root va =
         ⟨((pa / 4096 : Nat) : Int), pa, 7⟩) := by
  unfold wfWalk at hwf
  obtain ⟨hrt, hw3, hw2, hw1⟩ := hwf
  have A1 : (∃ s1 f3,
      ensureTable s0 owner root (idx3 va) = (s1, some f3) ∧
      s1.mem = s0.mem ∧
      s1.pageinfo (pa / 4096) = s0.pageinfo (pa / 4096) ∧
      0 < (s1.pageinfo root).refcount ∧
      0 < (s1.pageinfo f3).refcount ∧
      f3 ≠ root ∧
      s1.tables root (idx3 va) % 4096 = 7 ∧
      s1.tables root (idx3 va) / 4096 = f3 ∧
      (s1.tables f3 (idx2 va) % 2 = 1 →
        s1.tables f3 (idx2 va) % 4096 = 7 ∧
        0 < (s1.pageinfo (s1.tables f3 (idx2 va) / 4096)).refcount ∧
        s1.tables f3 (idx2 va) / 4096 ≠ root ∧
        s1.tables f3 (idx2 va) / 4096 ≠ f3) ∧
      (s1.tables f3 (idx2 va) % 2 = 1 →
       s1.tables (s1.tables f3 (idx2 va) / 4096) (idx1 va) % 2 = 1 →
        s1.tables (s1.tables f3 (idx2 va) / 4096) (idx1 va) % 4096 = 7 ∧
        0 < (s1.pageinfo
          (s1.tables (s1.tables f3 (idx2 va) / 4096) (idx1 va) / 4096)).refcount ∧
        s1.tables (s1.tables f3 (idx2 va) / 4096) (idx1 va) / 4096 ≠ root ∧
        s1.tables (s1.tables f3 (idx2 va) / 4096) (idx1 va) / 4096 ≠ f3 ∧
        s1.tables (s1.tables f3 (idx2 va) / 4096) (idx1 va) / 4096 ≠
          s1.tables f3 (idx2 va) / 4096)) ∨
      ensureTable s0 owner root (idx3 va) = (s0, none) := by
    by_cases h3 : s0.tables root (idx3 va) % 2 = 1
    · left
      obtain ⟨hm7, hrcf3, hne⟩ := hw3 h3
      exact ⟨s0, s0.tables root (idx3 va) / 4096,
        ensureTable_present s0 owner root (idx3 va) h3, rfl, rfl, hrt, hrcf3, hne,
        hm7, rfl, hw2 h3, hw1 h3⟩
    · have h3' : s0.tables root (idx3 va) % 2 = 0 := by omega
      cases hp : palloc s0 owner with
      | none => exact Or.inr (ensureTable_absent_none s0 owner root (idx3 va) h3' hp)
      | some pr =>
        obtain ⟨ks1, pa2⟩ := pr
        obtain ⟨hal, hlt, hrc0, hks1⟩ := palloc_spec s0 owner ks1 pa2 hp
        subst hks1
        left
        have hAroot : pa2 / 4096 ≠ root := by
          intro he; rw [he] at hrc0; omega
        have hApa : pa2 / 4096 ≠ pa / 4096 := by
          intro he; rw [he] at hrc0; omega
        have hzero : (setEntry (zeroFrameTable (setPageinfo s0 (pa2 / 4096) ⟨owner, 1⟩)
            (pa2 / 4096)) root (idx3 va) (pa2 + 7)).tables (pa2 / 4096) (idx2 va) = 0 := by
          simp only [setEntry_tables, zeroFrameTable_tables]
          rw [if_neg (fun hc => hAroot hc.1)]
          simp
        refine ⟨setEntry (zeroFrameTable (setPageinfo s0 (pa2 / 4096) ⟨owner, 1⟩)
            (pa2 / 4096)) root (idx3 va) (pa2 + 7), pa2 / 4096,
          ensureTable_absent_some s0 owner root (idx3 va) _ pa2 h3' hp, rfl, ?_, ?_, ?_,
          hAroot, ?_, ?_, ?_, ?_⟩
        · simp only [setEntry_pageinfo, zeroFrameTable_pageinfo, setPageinfo_pageinfo]
          rw [if_neg (fun he => hApa he.symm)]
        · simp only [setEntry_pageinfo, zeroFrameTable_pageinfo, setPageinfo_pageinfo]
          rw [if_neg (fun he => hAroot he.symm)]
          exact hrt
        · simp only [setEntry_pageinfo, zeroFrameTable_pageinfo, setPageinfo_pageinfo]
          simp
        · simp only [setEntry_tables]
          simp only [and_self, if_true]
          omega
        · simp only [setEntry_tables]
          simp only [and_self, if_true]
          omega
        · intro h2
          rw [hzero] at h2
          omega
        · intro h2
          rw [hzero] at h2
          omega
  rcases A1 with ⟨s1, f3, hens1, hmem1, hpi1, hrc1root, hrc1f3, hf3root, he3m, he3d,
    t12, t11⟩ | hfail1
  case inr =>
    have hvm : vm_map s0 owner root va pa 7 = (s0, -1) := by
      simp only [vm_map, hfail1]
    rw [hvm]
    exact ⟨rfl, rfl, fun h => absurd h (by norm_num)⟩
  have hrcpa1 : 0 < (s1.pageinfo (pa / 4096)).refcount := by
    rw [hpi1]; exact hrcpa
  have A2 : (∃ s2 f2,
      ensureTable s1 owner f3 (idx2 va) = (s2, some f2) ∧
      s2.mem = s1.mem ∧
      s2.pageinfo (pa / 4096) = s1.pageinfo (pa / 4096) ∧
      0 < (s2.pageinfo root).refcount ∧
      0 < (s2.pageinfo f3).refcount ∧
      0 < (s2.pageinfo f2).refcount ∧
      f2 ≠ root ∧ f2 ≠ f3 ∧
      s2.tables root (idx3 va) = s1.tables root (idx3 va) ∧
      s2.tables f3 (idx2 va) % 4096 = 7 ∧
      s2.tables f3 (idx2 va) / 4096 = f2 ∧
      (s2.tables f2 (idx1 va) % 2 = 1 →
        s2.tables f2 (idx1 va) % 4096 = 7 ∧
        0 < (s2.pageinfo (s2.tables f2 (idx1 va) / 4096)).refcount ∧
        s2.tables f2 (idx1 va) / 4096 ≠ root ∧
        s2.tables f2 (idx1 va) / 4096 ≠ f3 ∧
        s2.tables f2 (idx1 va) / 4096 ≠ f2)) ∨
      ensureTable s1 owner f3 (idx2 va) = (s1, none) := by
    by_cases h2 : s1.tables f3 (idx2 va) % 2 = 1
    · left
      obtain ⟨hm7, hrcf2, hner, hnef3⟩ := t12 h2
      exact ⟨s1, s1.tables f3 (idx2 va) / 4096,
        ensureTable_present s1 owner f3 (idx2 va) h2, rfl, rfl, hrc1root, hrc1f3, hrcf2,
        hner, hnef3, rfl, hm7, rfl, t11 h2⟩
    · have h2' : s1.tables f3 (idx2 va) % 2 = 0 := by omega
      cases hp : palloc s1 owner with
      | none => exact Or.inr (ensureTable_absent_none s1 owner f3 (idx2 va) h2' hp)
      | some pr =>
        obtain ⟨ks2, pb2⟩ := pr
        obtain ⟨hal, hlt, hrc0, hks2⟩ := palloc_spec s1 owner ks2 pb2 hp
        subst hks2
        left
        have hBroot : pb2 / 4096 ≠ root := by
          intro he; rw [he] at hrc0; omega
        have hBf3 : pb2 / 4096 ≠ f3 := by
          intro he; rw [he] at hrc0; omega
        have hBpa : pb2 / 4096 ≠ pa / 4096 := by
          intro he; rw [he] at hrc0; omega
        have hzero : (setEntry (zeroFrameTable (setPageinfo s1 (pb2 / 4096) ⟨owner, 1⟩)
            (pb2 / 4096)) f3 (idx2 va) (pb2 + 7)).tables (pb2 / 4096) (idx1 va) = 0 := by
          simp only [setEntry_tables, zeroFrameTable_tables]
          rw [if_neg (fun hc => hBf3 hc.1)]
          simp
        refine ⟨setEntry (zeroFrameTable (setPageinfo s1 (pb2 / 4096) ⟨owner, 1⟩)
            (pb2 / 4096)) f3 (idx2 va) (pb2 + 7), pb2 / 4096,
          ensureTable_absent_some s1 owner f3 (idx2 va) _ pb2 h2' hp, rfl, ?_, ?_, ?_, ?_,
          hBroot, hBf3, ?_, ?_, ?_, ?_⟩
        · simp only [setEntry_pageinfo, zeroFrameTable_pageinfo, setPageinfo_pageinfo]
          rw [if_neg (fun he => hBpa he.symm)]
        · simp only [setEntry_pageinfo, zeroFrameTable_pageinfo, setPageinfo_pageinfo]
          rw [if_neg (fun he => hBroot he.symm)]
          exact hrc1root
        · simp only [setEntry_pageinfo, zeroFrameTable_pageinfo, setPageinfo_pageinfo]
          rw [if_neg (fun he => hBf3 he.symm)]
          exact hrc1f3
        · simp only [setEntry_pageinfo, zeroFrameTable_pageinfo, setPageinfo_pageinfo]
          simp
        · simp only [setEntry_tables, zeroFrameTable_tables, setPageinfo_tables]
          rw [if_neg (fun hc => hf3root hc.1.symm), if_neg (fun hc => hBroot hc.symm)]
        · simp only [setEntry_tables]
          simp only [and_self, if_true]
          omega
        · simp only [setEntry_tables]
          simp only [and_self, if_true]
          omega
        · intro h1
          rw [hzero] at h1
          omega
  rcases A2 with ⟨s2, f2, hens2, hmem2, hpi2, hrc2root, hrc2f3, hrc2f2, hf2root, hf2f3,
    hpr2root, he2m, he2d, t21⟩ | hfail2
  case inr =>
    have hvm : vm_map s0 owner root va pa 7 = (s1, -1) := by
      simp only [vm_map, hens1, hfail2]
    rw [hvm]
    exact ⟨hmem1, hpi1, fun h => absurd h (by norm_num)⟩
  have hrcpa2 : 0 < (s2.pageinfo (pa / 4096)).refcount := by
    rw [hpi2]; exact hrcpa1
  have A3 : (∃ s3 f1,
      ensureTable s2 owner f2 (idx1 va) = (s3, some f1) ∧
      s3.mem = s2.mem ∧
      s3.pageinfo (pa / 4096) = s2.pageinfo (pa / 4096) ∧
      f1 ≠ root ∧ f1 ≠ f3 ∧ f1 ≠ f2 ∧
      s3.tables root (idx3 va) = s2.tables root (idx3 va) ∧
      s3.tables f3 (idx2 va) = s2.tables f3 (idx2 va) ∧
      s3.tables f2 (idx1 va) % 4096 = 7 ∧
      s3.tables f2 (idx1 va) / 4096 = f1) ∨
      ensureTable s2 owner f2 (idx1 va) = (s2, none) := by
    by_cases h1 : s2.tables f2 (idx1 va) % 2 = 1
    · left
      obtain ⟨hm7, hrcf1, hner, hnef3, hnef2⟩ := t21 h1
      exact ⟨s2, s2.tables f2 (idx1 va) / 4096,
        ensureTable_present s2 owner f2 (idx1 va) h1, rfl, rfl, hner, hnef3, hnef2,
        rfl, rfl, hm7, rfl⟩
    · have h1' : s2.tables f2 (idx1 va) % 2 = 0 := by omega
      cases hp : palloc s2 owner with
      | none => exact Or.inr (ensureTable_absent_none s2 owner f2 (idx1 va) h1' hp)
      | some pr =>
        obtain ⟨ks3, pc2⟩ := pr
        obtain ⟨hal, hlt, hrc0, hks3⟩ := palloc_spec s2 owner ks3 pc2 hp
        subst hks3
        left
        have hCroot : pc2 / 4096 ≠ root := by
          intro he; rw [he] at hrc0; omega
        have hCf3 : pc2 / 4096 ≠ f3 := by
          intro he; rw [he] at hrc0; omega
        have hCf2 : pc2 / 4096 ≠ f2 := by
          intro he; rw [he] at hrc0; omega
        have hCpa : pc2 / 4096 ≠ pa / 4096 := by
          intro he; rw [he] at hrc0; omega
        refine ⟨setEntry (zeroFrameTable (setPageinfo s2 (pc2 / 4096) ⟨owner, 1⟩)
            (pc2 / 4096)) f2 (idx1 va) (pc2 + 7), pc2 / 4096,
          ensureTable_absent_some s2 owner f2 (idx1 va) _ pc2 h1' hp, rfl, ?_,
          hCroot, hCf3, hCf2, ?_, ?_, ?_, ?_⟩
        · simp only [setEntry_pageinfo, zeroFrameTable_pageinfo, setPageinfo_pageinfo]
          rw [if_neg (fun he => hCpa he.symm)]
        · simp only [setEntry_tables, zeroFrameTable_tables, setPageinfo_tables]
          rw [if_neg (fun hc => hf2root hc.1.symm), if_neg (fun hc => hCroot hc.symm)]
        · simp only [setEntry_tables, zeroFrameTable_tables, setPageinfo_tables]
          rw [if_neg (fun hc => hf2f3 hc.1.symm), if_neg (fun hc => hCf3 hc.symm)]
        · simp only [setEntry_tables]
          simp only [and_self, if_true]
          omega
        · simp only [setEntry_tables]
          simp only [and_self, if_true]
          omega
  rcases A3 with ⟨s3, f1, hens3, hmem3, hpi3, hf1root, hf1f3, hf1f2, hpr3root, hpr3f3,
    he1m, he1d⟩ | hfail3
  case inr =>
    have hvm : vm_map s0 owner root va pa 7 = (s2, -1) := by
      simp only [vm_map, hens1, hens2, hfail3]
    rw [hvm]
    refine ⟨by rw [hmem2, hmem1], by rw [hpi2, hpi1], fun h => absurd h (by norm_num)⟩
  have hvm : vm_map s0 owner root va pa 7 =
      (setEntry s3 f1 (idx0 va) (pa / 4096 * 4096 + 7 % 4096), 0) := by
    simp only [vm_map, hens1, hens2, hens3]
  rw [hvm]
  refine ⟨?_, ?_, ?_⟩
  · simp only [setEntry_mem]
    rw [hmem3, hmem2, hmem1]
  · simp only [setEntry_pageinfo]
    rw [hpi3, hpi2, hpi1]
  · intro _
    have r3 : (setEntry s3 f1 (idx0 va) (pa / 4096 * 4096 + 7 % 4096)).tables root
        (idx3 va) = s1.tables root (idx3 va) := by
      simp only [setEntry_tables]
      rw [if_neg (fun hc => hf1root hc.1.symm), hpr3root, hpr2root]
    have r2 : (setEntry s3 f1 (idx0 va) (pa / 4096 * 4096 + 7 % 4096)).tables f3
        (idx2 va) = s2.tables f3 (idx2 va) := by
      simp only [setEntry_tables]
      rw [if_neg (fun hc => hf1f3 hc.1.symm), hpr3f3]
    have r1 : (setEntry s3 f1 (idx0 va) (pa / 4096 * 4096 + 7 % 4096)).tables f2
        (idx1 va) = s3.tables f2 (idx1 va) := by
      simp only [setEntry_tables]
      rw [if_neg (fun hc => hf1f2 hc.1.symm)]
    have r0 : (setEntry s3 f1 (idx0 va) (pa / 4096 * 4096 + 7 % 4096)).tables f1
        (idx0 va) = pa / 4096 * 4096 + 7 % 4096 := by
      simp only [setEntry_tables]
      simp only [and_self, if_true]
    have hv : pa / 4096 * 4096 + 7 % 4096 = pa + 7 := by omega
    simp only [vm_lookup]
    rw [r3, if_neg (by omega), he3d, r2, if_neg (by omega), he2d, r1,
      if_neg (by omega), he1d, r0, hv, if_neg (by omega)]
    have hpn : (pa + 7) / 4096 = pa / 4096 := by omega
    have hpaf : pa / 4096 * 4096 + va % 4096 = pa := by omega
    have hperm := perm_and_seven (s1.tables root (idx3 va)) (s2.tables f3 (idx2 va))
      (s3.tables f2 (idx1 va)) (pa + 7) he3m he2m he1m (by omega)
    rw [hpn, hpaf, hperm]

theorem vm_map_status (ks : KState) (o : Int) (root va pa perm : Nat) :
    (vm_map ks o root va pa perm).2 = 0 ∨ (vm_map ks o root va pa perm).2 = -1 := by
  unfold vm_map
  cases h3 : ensureTable ks o root (idx3 va) with
  | mk s1 o3 =>
    cases o3 with
    | none => simp
    | some f3 =>
      simp only
      cases h2 : ensureTable s1 o f3 (idx2 va) with
      | mk s2 o2 =>
        cases o2 with
        | none => simp
        | some f2 =>
          simp only
          cases h1 : ensureTable s2 o f2 (idx1 va) with
          | mk s3 o1 =>
            cases o1 with
            | none => simp
            | some f1 => simp

theorem wfWalk_transport (ks : KState) (root va pn : Nat) (o : Int) (pa2 : Nat)
    (h : wfWalk ks root va) :
    wfWalk (memsetPage (setPageinfo ks pn ⟨o, 1⟩) pa2) root va := by
  unfold wfWalk at h ⊢
  have ht : ∀ g j, (memsetPage (setPageinfo ks pn ⟨o, 1⟩) pa2).tables g j =
      ks.tables g j := fun g j => rfl
  have hp : ∀ q, (memsetPage (setPageinfo ks pn ⟨o, 1⟩) pa2).pageinfo q =
      if q = pn then ⟨o, 1⟩ else ks.pageinfo q := fun q => rfl
  obtain ⟨ha, hb, hc, hd⟩ := h
  simp only [ht, hp]
  refine ⟨?_, fun h3 => ?_, fun h3 h2 => ?_, fun h3 h2 h1 => ?_⟩
  · split
    · exact Nat.one_pos
    · exact ha
  · obtain ⟨x, y, z⟩ := hb h3
    refine ⟨x, ?_, z⟩
    split
    · exact Nat.one_pos
    · exact y
  · obtain ⟨x, y, z, w⟩ := hc h3 h2
    refine ⟨x, ?_, z, w⟩
    split
    · exact Nat.one_pos
    · exact y
  · obtain ⟨x, y, z, w, v⟩ := hd h3 h2 h1
    refine ⟨x, ?_, z, w, v⟩
    split
    · exact Nat.one_pos
    · exact y

/-- C1: inside the heap window, a user-mode page fault resumes the process
when a present mapping already exists at the page-rounded address; otherwise
a frame is allocated to the faulting process (refcount 1, owner = pid),
zero-filled, and mapped present|writable|user (verified through a lookup of
the final state), marking the process runnable; allocator exhaustion marks
it broken; a map failure releases the freshly allocated frame back to
refcount 0 / owner free and marks it broken. -/
theorem c1_pagefault (ks : KState) (p : Proc) (addr : Nat)
    (hwin : p.original_break ≤ addr ∧ addr < p.program_break)
    (h0 : (ks.pageinfo 0).refcount ≠ 0)
    (hwf : wfWalk ks p.pagetable (addr / 4096 * 4096)) :
    C1Post ks p addr := by
  unfold C1Post
  refine ⟨?_, ?_, ?_⟩
  · intro hm
    have hres : exception_pagefault_user ks p addr =
        (ks, { p with p_state := PState.runnable }) := by
      simp only [exception_pagefault_user, if_pos hwin, if_pos hm]
    rw [hres]
    exact ⟨rfl, by simp [resumesCurrent]⟩
  · intro hm hpal
    have hres : exception_pagefault_user ks p addr =
        (ks, { p with p_state := PState.broken }) := by
      simp only [exception_pagefault_user, if_pos hwin]
      rw [if_neg (by omega), hpal]
    rw [hres]
    exact ⟨rfl, by simp [resumesCurrent]⟩
  · intro ks1 pa hm hpal
    obtain ⟨hal, hlt, hrc0, hks1⟩ := palloc_spec ks p.pid ks1 pa hpal
    have hpa0 : pa ≠ 0 := by
      intro he
      rw [he] at hrc0
      norm_num at hrc0
      exact h0 hrc0
    subst hks1
    have hpi1 : (setPageinfo ks (pa / 4096) ⟨p.pid, 1⟩).pageinfo (pa / 4096) =
        ⟨p.pid, 1⟩ := by
      simp only [setPageinfo_pageinfo]
      simp
    refine ⟨hpi1, hpa0, ?_, ?_⟩
    · intro hr0
      have hva2 : addr / 4096 * 4096 % 4096 = 0 := by omega
      have hpa2 : pa % 4096 = 0 := by omega
      have hwf2 := wfWalk_transport ks p.pagetable (addr / 4096 * 4096) (pa / 4096)
        p.pid pa hwf
      have hrcpa2 : 0 < ((memsetPage (setPageinfo ks (pa / 4096) ⟨p.pid, 1⟩)
          pa).pageinfo (pa / 4096)).refcount := by
        simp only [memsetPage_pageinfo, setPageinfo_pageinfo]
        simp
      obtain ⟨hmm, hpi, hlk⟩ := vm_map_fresh
        (memsetPage (setPageinfo ks (pa / 4096) ⟨p.pid, 1⟩) pa) p.pid p.pagetable
        (addr / 4096 * 4096) pa hwf2 hva2 hpa2 hrcpa2
      have hres : exception_pagefault_user ks p addr =
          ((vm_map (memsetPage (setPageinfo ks (pa / 4096) ⟨p.pid, 1⟩) pa) p.pid
              p.pagetable (addr / 4096 * 4096) pa 7).1,
           { p with p_state := PState.runnable }) := by
        simp only [exception_pagefault_user, if_pos hwin]
        rw [if_neg (by omega)]
        simp only [hpal]
        rw [if_neg hpa0, if_neg (by omega)]
      rw [hres]
      refine ⟨rfl, by simp [resumesCurrent], ?_, hlk hr0⟩
      intro i hi
      rw [hmm]
      show (if pa ≤ pa + i ∧ pa + i < pa + PAGESIZE then 0
            else (setPageinfo ks (pa / 4096) ⟨p.pid, 1⟩).mem (pa + i)) = 0
      rw [if_pos ⟨by omega, by omega⟩]
    · intro hrne
      have hst := vm_map_status (memsetPage (setPageinfo ks (pa / 4096) ⟨p.pid, 1⟩) pa)
        p.pid p.pagetable (addr / 4096 * 4096) pa 7
      have hrm1 : (vm_map (memsetPage (setPageinfo ks (pa / 4096) ⟨p.pid, 1⟩) pa) p.pid
          p.pagetable (addr / 4096 * 4096) pa 7).2 = -1 := by
        rcases hst with h | h
        · exact absurd h hrne
        · exact h
      have hva2 : addr / 4096 * 4096 % 4096 = 0 := by omega
      have hpa2 : pa % 4096 = 0 := by omega
      have hwf2 := wfWalk_transport ks p.pagetable (addr / 4096 * 4096) (pa / 4096)
        p.pid pa hwf
      have hrcpa2 : 0 < ((memsetPage (setPageinfo ks (pa / 4096) ⟨p.pid, 1⟩)
          pa).pageinfo (pa / 4096)).refcount := by
        simp only [memsetPage_pageinfo, setPageinfo_pageinfo]
        simp
      obtain ⟨hmm, hpi, hlk⟩ := vm_map_fresh
        (memsetPage (setPageinfo ks (pa / 4096) ⟨p.pid, 1⟩) pa) p.pid p.pagetable
        (addr / 4096 * 4096) pa hwf2 hva2 hpa2 hrcpa2
      have hres : exception_pagefault_user ks p addr =
          (freepage (vm_map (memsetPage (setPageinfo ks (pa / 4096) ⟨p.pid, 1⟩) pa)
              p.pid p.pagetable (addr / 4096 * 4096) pa 7).1 pa,
           { p with p_state := PState.broken }) := by
        simp only [exception_pagefault_user, if_pos hwin]
        rw [if_neg (by omega)]
        simp only [hpal]
        rw [if_neg hpa0, if_pos (by omega)]
      rw [hres]
      refine ⟨rfl, by simp [resumesCurrent], ?_⟩
      have hks3pa : (vm_map (memsetPage (setPageinfo ks (pa / 4096) ⟨p.pid, 1⟩) pa)
          p.pid p.pagetable (addr / 4096 * 4096) pa 7).1.pageinfo (pa / 4096) =
          ⟨p.pid, 1⟩ := by
        rw [hpi]
        simp only [memsetPage_pageinfo, setPageinfo_pageinfo]
        simp
      have hpn4 : pa / PAGESIZE = pa / 4096 := rfl
      have hfc := (freepageInfo_cases (vm_map (memsetPage (setPageinfo ks (pa / 4096)
          ⟨p.pid, 1⟩) pa) p.pid p.pagetable (addr / 4096 * 4096) pa 7).1.pageinfo pa
          hpa0).2.2 (by rw [hpn4]; exact hlt) (by rw [hpn4, hks3pa]; exact Nat.one_pos)
      show freepageInfo _ pa (pa / 4096) = _
      rw [hfc]
      rw [hpn4]
      simp only [if_pos rfl]
      rw [hks3pa]
      simp

/-- Witness for C1: a fault at `0x100010`, inside the heap window of a
process whose page table is still empty. -/
theorem c1_pagefault_witness :
    (pC1w.original_break ≤ 0x100010 ∧ 0x100010 < pC1w.program_break) ∧
    (ksC1w.pageinfo 0).refcount ≠ 0 ∧
    wfWalk ksC1w pC1w.pagetable (0x100010 / 4096 * 4096) ∧
    C1Post ksC1w pC1w 0x100010 :=
  ⟨by decide, by decide, by decide,
   c1_pagefault ksC1w pC1w 0x100010 (by decide) (by decide) (by decide)⟩

/-! ## The sbrk shrink path: supporting lemmas -/

theorem mem_walkReads_one (ks : KState) (root va : Nat) :
    (root, idx3 va) ∈ walkReads ks root va := by
  simp only [walkReads]
  split_ifs <;> simp

theorem mem_walkReads_two (ks : KState) (root va : Nat)
    (h3 : ks.tables root (idx3 va) % 2 = 1) :
    (ks.tables root (idx3 va) / 4096, idx2 va) ∈ walkReads ks root va := by
  simp only [walkReads]
  rw [if_neg (by omega)]
  split_ifs <;> simp

theorem mem_walkReads_three (ks : KState) (root va : Nat)
    (h3 : ks.tables root (idx3 va) % 2 = 1)
    (h2 : ks.tables (ks.tables root (idx3 va) / 4096) (idx2 va) % 2 = 1) :
    (ks.tables (ks.tables root (idx3 va) / 4096) (idx2 va) / 4096, idx1 va) ∈
      walkReads ks root va := by
  simp only [walkReads]
  rw [if_neg (by omega), if_neg (by omega)]
  split_ifs <;> simp

theorem mem_walkReads_four (ks : KState) (root va : Nat)
    (h3 : ks.tables root (idx3 va) % 2 = 1)
    (h2 : ks.tables (ks.tables root (idx3 va) / 4096) (idx2 va) % 2 = 1)
    (h1 : ks.tables (ks.tables (ks.tables root (idx3 va) / 4096) (idx2 va) / 4096)
      (idx1 va) % 2 = 1) :
    (ks.tables (ks.tables (ks.tables root (idx3 va) / 4096) (idx2 va) / 4096)
      (idx1 va) / 4096, idx0 va) ∈ walkReads ks root va := by
  simp only [walkReads]
  rw [if_neg (by omega), if_neg (by omega), if_neg (by omega)]
  simp

theorem walk_congr (ks ks2 : KState) (root va : Nat)
    (h : ∀ s ∈ walkReads ks root va, ks2.tables s.1 s.2 = ks.tables s.1 s.2) :
    vm_lookup ks2 root va = vm_lookup ks root va ∧
    walkReads ks2 root va = walkReads ks root va ∧
    leafSlot ks2 root va = leafSlot ks root va ∧
    interiorReads ks2 root va = interiorReads ks root va := by
  have he3 : ks2.tables root (idx3 va) = ks.tables root (idx3 va) :=
    h (root, idx3 va) (mem_walkReads_one ks root va)
  by_cases h3 : ks.tables root (idx3 va) % 2 = 0
  · refine ⟨?_, ?_, ?_, ?_⟩ <;>
      simp [vm_lookup, walkReads, leafSlot, interiorReads, he3, h3]
  · have h3' : ks.tables root (idx3 va) % 2 = 1 := by omega
    have he2 : ks2.tables (ks.tables root (idx3 va) / 4096) (idx2 va) =
        ks.tables (ks.tables root (idx3 va) / 4096) (idx2 va) :=
      h (ks.tables root (idx3 va) / 4096, idx2 va) (mem_walkReads_two ks root va h3')
    by_cases h2 : ks.tables (ks.tables root (idx3 va) / 4096) (idx2 va) % 2 = 0
    · refine ⟨?_, ?_, ?_, ?_⟩ <;>
        simp [vm_lookup, walkReads, leafSlot, interiorReads, he3, he2, h3, h2]
    · have h2' : ks.tables (ks.tables root (idx3 va) / 4096) (idx2 va) % 2 = 1 := by
        omega
      have he1 : ks2.tables (ks.tables (ks.tables root (idx3 va) / 4096)
            (idx2 va) / 4096) (idx1 va) =
          ks.tables (ks.tables (ks.tables root (idx3 va) / 4096) (idx2 va) / 4096)
            (idx1 va) :=
        h (ks.tables (ks.tables root (idx3 va) / 4096) (idx2 va) / 4096, idx1 va)
          (mem_walkReads_three ks root va h3' h2')
      by_cases h1 : ks.tables (ks.tables (ks.tables root (idx3 va) / 4096)
          (idx2 va) / 4096) (idx1 va) % 2 = 0
      · refine ⟨?_, ?_, ?_, ?_⟩ <;>
          simp [vm_lookup, walkReads, leafSlot, interiorReads, he3, he2, he1, h3, h2, h1]
      · have h1' : ks.tables (ks.tables (ks.tables root (idx3 va) / 4096)
            (idx2 va) / 4096) (idx1 va) % 2 = 1 := by omega
        have he0 : ks2.tables (ks.tables (ks.tables (ks.tables root (idx3 va) / 4096)
              (idx2 va) / 4096) (idx1 va) / 4096) (idx0 va) =
            ks.tables (ks.tables (ks.tables (ks.tables root (idx3 va) / 4096)
              (idx2 va) / 4096) (idx1 va) / 4096) (idx0 va) :=
          h (ks.tables (ks.tables (ks.tables root (idx3 va) / 4096) (idx2 va) / 4096)
              (idx1 va) / 4096, idx0 va)
            (mem_walkReads_four ks root va h3' h2' h1')
        refine ⟨?_, ?_, ?_, ?_⟩ <;>
          simp [vm_lookup, walkReads, leafSlot, interiorReads, he3, he2, he1, he0,
            h3, h2, h1]

theorem lookup_invalid_mono (ks ks2 : KState) (root va : Nat)
    (h : ∀ f i, ks2.tables f i = ks.tables f i ∨ ks2.tables f i = 0)
    (hinv : (vm_lookup ks root va).pn = -1) :
    (vm_lookup ks2 root va).pn = -1 := by
  rcases h root (idx3 va) with he3 | he3
  · by_cases h3 : ks.tables root (idx3 va) % 2 = 0
    · simp [vm_lookup, vamInvalid, he3, h3]
    · rcases h (ks.tables root (idx3 va) / 4096) (idx2 va) with he2 | he2
      · by_cases h2 : ks.tables (ks.tables root (idx3 va) / 4096) (idx2 va) % 2 = 0
        · simp [vm_lookup, vamInvalid, he3, he2, h3, h2]
        · rcases h (ks.tables (ks.tables root (idx3 va) / 4096) (idx2 va) / 4096)
              (idx1 va) with he1 | he1
          · by_cases h1 : ks.tables (ks.tables (ks.tables root (idx3 va) / 4096)
                (idx2 va) / 4096) (idx1 va) % 2 = 0
            · simp [vm_lookup, vamInvalid, he3, he2, he1, h3, h2, h1]
            · rcases h (ks.tables (ks.tables (ks.tables root (idx3 va) / 4096)
                  (idx2 va) / 4096) (idx1 va) / 4096) (idx0 va) with he0 | he0
              · by_cases h0 : ks.tables (ks.tables (ks.tables (ks.tables root
                    (idx3 va) / 4096) (idx2 va) / 4096) (idx1 va) / 4096)
                    (idx0 va) % 2 = 0
                · simp [vm_lookup, vamInvalid, he3, he2, he1, he0, h3, h2, h1, h0]
                · exfalso
                  simp [vm_lookup, vamInvalid, h3, h2, h1, h0] at hinv
                  omega
              · simp [vm_lookup, vamInvalid, he3, he2, he1, he0, h3, h2, h1]
          · simp [vm_lookup, vamInvalid, he3, he2, he1, h3, h2]
      · simp [vm_lookup, vamInvalid, he3, he2, h3]
  · simp [vm_lookup, vamInvalid, he3]

theorem lookup_valid (ks : KState) (root va : Nat)
    (h : (vm_lookup ks root va).pn ≠ -1) :
    ks.tables root (idx3 va) % 2 = 1 ∧
    ks.tables (ks.tables root (idx3 va) / 4096) (idx2 va) % 2 = 1 ∧
    ks.tables (ks.tables (ks.tables root (idx3 va) / 4096) (idx2 va) / 4096)
      (idx1 va) % 2 = 1 ∧
    ks.tables (ks.tables (ks.tables (ks.tables root (idx3 va) / 4096)
      (idx2 va) / 4096) (idx1 va) / 4096) (idx0 va) % 2 = 1 := by
  by_cases h3 : ks.tables root (idx3 va) % 2 = 0
  · exact absurd (by simp [vm_lookup, vamInvalid, h3]) h
  by_cases h2 : ks.tables (ks.tables root (idx3 va) / 4096) (idx2 va) % 2 = 0
  · exact absurd (by simp [vm_lookup, vamInvalid, h3, h2]) h
  by_cases h1 : ks.tables (ks.tables (ks.tables root (idx3 va) / 4096) (idx2 va) / 4096)
      (idx1 va) % 2 = 0
  · exact absurd (by simp [vm_lookup, vamInvalid, h3, h2, h1]) h
  by_cases h0 : ks.tables (ks.tables (ks.tables (ks.tables root (idx3 va) / 4096)
      (idx2 va) / 4096) (idx1 va) / 4096) (idx0 va) % 2 = 0
  · exact absurd (by simp [vm_lookup, vamInvalid, h3, h2, h1, h0]) h
  exact ⟨by omega, by omega, by omega, by omega⟩

theorem leafSlot_of_present (ks : KState) (root va : Nat)
    (h3 : ks.tables root (idx3 va) % 2 = 1)
    (h2 : ks.tables (ks.tables root (idx3 va) / 4096) (idx2 va) % 2 = 1)
    (h1 : ks.tables (ks.tables (ks.tables root (idx3 va) / 4096) (idx2 va) / 4096)
      (idx1 va) % 2 = 1) :
    leafSlot ks root va =
      some (ks.tables (ks.tables (ks.tables root (idx3 va) / 4096) (idx2 va) / 4096)
        (idx1 va) / 4096, idx0 va) := by
  simp [leafSlot, h3, h2, h1]

theorem interiorReads_of_present (ks : KState) (root va : Nat)
    (h3 : ks.tables root (idx3 va) % 2 = 1)
    (h2 : ks.tables (ks.tables root (idx3 va) / 4096) (idx2 va) % 2 = 1) :
    interiorReads ks root va =
      [(root, idx3 va), (ks.tables root (idx3 va) / 4096, idx2 va),
       (ks.tables (ks.tables root (idx3 va) / 4096) (idx2 va) / 4096, idx1 va)] := by
  simp [interiorReads, h3, h2]

theorem walkReads_of_present (ks : KState) (root va : Nat)
    (h3 : ks.tables root (idx3 va) % 2 = 1)
    (h2 : ks.tables (ks.tables root (idx3 va) / 4096) (idx2 va) % 2 = 1)
    (h1 : ks.tables (ks.tables (ks.tables root (idx3 va) / 4096) (idx2 va) / 4096)
      (idx1 va) % 2 = 1) :
    walkReads ks root va =
      [(root, idx3 va), (ks.tables root (idx3 va) / 4096, idx2 va),
       (ks.tables (ks.tables root (idx3 va) / 4096) (idx2 va) / 4096, idx1 va),
       (ks.tables (ks.tables (ks.tables root (idx3 va) / 4096) (idx2 va) / 4096)
         (idx1 va) / 4096, idx0 va)] := by
  simp [walkReads, h3, h2, h1]

theorem unmap_mapped (ks : KState) (root va : Nat)
    (h : (vm_lookup ks root va).pn ≠ -1) :
    (virtual_memory_unmap ks root va).1.tables =
      (setEntry ks (ks.tables (ks.tables (ks.tables root (idx3 va) / 4096)
        (idx2 va) / 4096) (idx1 va) / 4096) (idx0 va) 0).tables ∧
    (virtual_memory_unmap ks root va).1.mem = ks.mem ∧
    (virtual_memory_unmap ks root va).1.pageinfo =
      freepageInfo ks.pageinfo (vm_lookup ks root va).pa := by
  obtain ⟨h3, h2, h1, h0⟩ := lookup_valid ks root va h
  have hmap : vm_map ks 0 root va 0 0 =
      (setEntry ks (ks.tables (ks.tables (ks.tables root (idx3 va) / 4096)
          (idx2 va) / 4096) (idx1 va) / 4096) (idx0 va) 0, 0) := by
    simp [vm_map, ensureTable, h3, h2, h1]
  simp only [virtual_memory_unmap]
  rw [if_neg h, hmap]
  simp only
  rw [if_neg (by norm_num)]
  by_cases hpa : (vm_lookup ks root va).pa = 0
  · rw [if_neg (fun hc => hc hpa)]
    refine ⟨rfl, rfl, ?_⟩
    rw [hpa, freepageInfo_id_of_zero]
    rfl
  · rw [if_pos hpa]
    exact ⟨rfl, rfl, rfl⟩

theorem clearedSlots_cons_unmapped (ks : KState) (root A : Nat) (rest : List Nat)
    (hm : (vm_lookup ks root A).pn = -1) :
    clearedSlots ks root (A :: rest) = clearedSlots ks root rest := by
  simp only [clearedSlots, List.filterMap_cons]
  rw [if_neg (not_not_intro hm)]

theorem clearedSlots_cons_mapped (ks : KState) (root A : Nat) (rest : List Nat)
    (s : Nat × Nat) (hm : (vm_lookup ks root A).pn ≠ -1)
    (hl : leafSlot ks root A = some s) :
    clearedSlots ks root (A :: rest) = s :: clearedSlots ks root rest := by
  simp only [clearedSlots, List.filterMap_cons]
  rw [if_pos hm, hl]

theorem backingPAs_cons_skip (ks : KState) (root A : Nat) (rest : List Nat)
    (hm : ¬((vm_lookup ks root A).pn ≠ -1 ∧ (vm_lookup ks root A).pa ≠ 0)) :
    backingPAs ks root (A :: rest) = backingPAs ks root rest := by
  simp only [backingPAs, List.filterMap_cons]
  rw [if_neg hm]

theorem backingPAs_cons_take (ks : KState) (root A : Nat) (rest : List Nat)
    (hm : (vm_lookup ks root A).pn ≠ -1) (hpa : (vm_lookup ks root A).pa ≠ 0) :
    backingPAs ks root (A :: rest) =
      (vm_lookup ks root A).pa :: backingPAs ks root rest := by
  simp only [backingPAs, List.filterMap_cons]
  rw [if_pos ⟨hm, hpa⟩]

theorem clearedSlots_mem_elim (ks : KState) (root : Nat) (T : List Nat) (r : Nat × Nat)
    (h : r ∈ clearedSlots ks root T) :
    ∃ B ∈ T, (vm_lookup ks root B).pn ≠ -1 ∧ leafSlot ks root B = some r := by
  simp only [clearedSlots, List.mem_filterMap] at h
  obtain ⟨B, hB, hg⟩ := h
  by_cases hc : (vm_lookup ks root B).pn = -1
  · rw [if_neg (not_not_intro hc)] at hg
    exact absurd hg (by simp)
  · rw [if_pos hc] at hg
    exact ⟨B, hB, hc, hg⟩

theorem clearedSlots_mem_intro (ks : KState) (root : Nat) (T : List Nat) (A : Nat)
    (s : Nat × Nat) (hA : A ∈ T) (hm : (vm_lookup ks root A).pn ≠ -1)
    (hl : leafSlot ks root A = some s) : s ∈ clearedSlots ks root T := by
  simp only [clearedSlots, List.mem_filterMap]
  exact ⟨A, hA, by rw [if_pos hm, hl]⟩

theorem backingPAs_mem_elim (ks : KState) (root : Nat) (T : List Nat) (pa : Nat)
    (h : pa ∈ backingPAs ks root T) :
    ∃ B ∈ T, (vm_lookup ks root B).pn ≠ -1 ∧ (vm_lookup ks root B).pa = pa ∧
      pa ≠ 0 := by
  simp only [backingPAs, List.mem_filterMap] at h
  obtain ⟨B, hB, hg⟩ := h
  by_cases hc : (vm_lookup ks root B).pn ≠ -1 ∧ (vm_lookup ks root B).pa ≠ 0
  · rw [if_pos hc] at hg
    have he := Option.some.inj hg
    exact ⟨B, hB, hc.1, he, he ▸ hc.2⟩
  · rw [if_neg hc] at hg
    exact absurd hg (by simp)

theorem shrinkWF_tail (ks : KState) (root A : Nat) (rest : List Nat)
    (h : shrinkWF ks root (A :: rest)) : shrinkWF ks root rest := by
  intro B hB sB hsB
  obtain ⟨h1, h2⟩ := h B (List.mem_cons_of_mem A hB) sB hsB
  exact ⟨h1, fun C hC => h2 C (List.mem_cons_of_mem A hC)⟩

theorem pageRange_nodup (lo hi : Nat) : (pageRange lo hi).Nodup := by
  unfold pageRange
  exact List.Nodup.map (fun a b hab => by omega) (List.nodup_range _)

theorem pageRange_mem (lo hi va : Nat) (hlo : lo % 4096 = 0) (hhi : hi % 4096 = 0) :
    va ∈ pageRange lo hi ↔ va % 4096 = 0 ∧ lo ≤ va ∧ va < hi := by
  unfold pageRange
  simp only [List.mem_map, List.mem_range]
  constructor
  · rintro ⟨k, hk, rfl⟩
    omega
  · rintro ⟨h1, h2, h3⟩
    exact ⟨(va - lo) / 4096, by omega, by omega⟩

theorem roundup_page_aligned (x : Nat) : ROUNDUP_PAGE x % 4096 = 0 := by
  unfold ROUNDUP_PAGE
  omega

theorem freepageInfo_untouched (pi : Nat → PhysPageInfo) (pa q : Nat)
    (h : q ≠ pa / PAGESIZE) : freepageInfo pi pa q = pi q := by
  by_cases h0 : pa = 0
  · rw [h0, freepageInfo_id_of_zero]
  · obtain ⟨hA, hB, hC⟩ := freepageInfo_cases pi pa h0
    by_cases hn : NPAGES ≤ pa / PAGESIZE
    · rw [hA hn]
    · by_cases hrc : (pi (pa / PAGESIZE)).refcount = 0
      · rw [hB (by omega) hrc]
      · rw [hC (by omega) (by omega)]
        exact if_neg h

theorem freepageInfo_hit (pi : Nat → PhysPageInfo) (pa : Nat) (h0 : pa ≠ 0)
    (hn : pa / PAGESIZE < NPAGES) (hrc : 0 < (pi (pa / PAGESIZE)).refcount) :
    freepageInfo pi pa (pa / PAGESIZE) =
      ⟨if (pi (pa / PAGESIZE)).refcount - 1 = 0 then 0 else (pi (pa / PAGESIZE)).owner,
       (pi (pa / PAGESIZE)).refcount - 1⟩ := by
  obtain ⟨-, -, hC⟩ := freepageInfo_cases pi pa h0
  rw [hC hn hrc]
  exact if_pos rfl

theorem foldl_freepageInfo_untouched :
    ∀ (l : List Nat) (pi : Nat → PhysPageInfo) (q : Nat),
      q ∉ l.map (fun pa => pa / PAGESIZE) →
      List.foldl freepageInfo pi l q = pi q := by
  intro l
  induction l with
  | nil => intro pi q _; rfl
  | cons a t ih =>
    intro pi q hq
    simp only [List.map_cons, List.mem_cons, not_or] at hq
    rw [List.foldl_cons, ih (freepageInfo pi a) q hq.2]
    exact freepageInfo_untouched pi a q hq.1

theorem foldl_freepageInfo_released :
    ∀ (l : List Nat) (pi : Nat → PhysPageInfo),
      (l.map (fun pa => pa / PAGESIZE)).Nodup →
      (∀ pa ∈ l, pa ≠ 0 ∧ pa / PAGESIZE < NPAGES ∧
        0 < (pi (pa / PAGESIZE)).refcount) →
      ∀ pa ∈ l, List.foldl freepageInfo pi l (pa / PAGESIZE) =
        ⟨if (pi (pa / PAGESIZE)).refcount - 1 = 0 then 0
          else (pi (pa / PAGESIZE)).owner,
         (pi (pa / PAGESIZE)).refcount - 1⟩ := by
  intro l
  induction l with
  | nil => intro pi _ _ pa hpa; cases hpa
  | cons a t ih =>
    intro pi hnd hc pa hpa
    simp only [List.map_cons, List.nodup_cons] at hnd
    rw [List.foldl_cons]
    rcases List.mem_cons.mp hpa with rfl | hmem
    · rw [foldl_freepageInfo_untouched t (freepageInfo pi pa) (pa / PAGESIZE) hnd.1]
      obtain ⟨h0, hn, hrc⟩ := hc pa (List.mem_cons_self _ _)
      exact freepageInfo_hit pi pa h0 hn hrc
    · have hne : pa / PAGESIZE ≠ a / PAGESIZE := by
        intro he
        exact hnd.1 (he ▸ List.mem_map_of_mem _ hmem)
      have hpi : freepageInfo pi a (pa / PAGESIZE) = pi (pa / PAGESIZE) :=
        freepageInfo_untouched pi a _ hne
      have hcc : ∀ pb ∈ t, pb ≠ 0 ∧ pb / PAGESIZE < NPAGES ∧
          0 < (freepageInfo pi a (pb / PAGESIZE)).refcount := by
        intro pb hpb
        obtain ⟨h0, hn, hrc⟩ := hc pb (List.mem_cons_of_mem _ hpb)
        have hne' : pb / PAGESIZE ≠ a / PAGESIZE := fun he =>
          hnd.1 (he ▸ List.mem_map_of_mem _ hpb)
        rw [freepageInfo_untouched pi a _ hne']
        exact ⟨h0, hn, hrc⟩
      rw [ih (freepageInfo pi a) hnd.2 hcc pa hmem, hpi]

theorem filterMap_congr_mem {α β : Type} (f g : α → Option β) :
    ∀ (l : List α), (∀ a ∈ l, f a = g a) → l.filterMap f = l.filterMap g := by
  intro l
  induction l with
  | nil => intro _; rfl
  | cons a t ih =>
    intro h
    simp only [List.filterMap_cons]
    rw [h a (List.mem_cons_self a t), ih (fun x hx => h x (List.mem_cons_of_mem a hx))]

theorem shrink_effect (root : Nat) :
    ∀ (T : List Nat) (ks : KState), shrinkWF ks root T → T.Nodup →
      (shrinkPages root ks T).1.mem = ks.mem ∧
      (∀ f i, (shrinkPages root ks T).1.tables f i =
        if (f, i) ∈ clearedSlots ks root T then 0 else ks.tables f i) ∧
      (shrinkPages root ks T).1.pageinfo =
        List.foldl freepageInfo ks.pageinfo (backingPAs ks root T) := by
  intro T
  induction T with
  | nil =>
    intro ks _ _
    refine ⟨rfl, ?_, rfl⟩
    intro f i
    simp [clearedSlots, shrinkPages]
  | cons A rest ih =>
    intro ks hwf hnd
    by_cases hm : (vm_lookup ks root A).pn = -1
    · have hu : virtual_memory_unmap ks root A = (ks, 0) := by
        simp only [virtual_memory_unmap]
        rw [if_pos hm]
      have hstep : shrinkPages root ks (A :: rest) = shrinkPages root ks rest := by
        simp only [shrinkPages, hu]
        rw [if_neg (by norm_num)]
      rw [hstep, clearedSlots_cons_unmapped ks root A rest hm,
        backingPAs_cons_skip ks root A rest (fun hc => hc.1 hm)]
      exact ih ks (shrinkWF_tail ks root A rest hwf) (List.Nodup.of_cons hnd)
    · obtain ⟨h3, h2, h1, h0⟩ := lookup_valid ks root A hm
      have hls := leafSlot_of_present ks root A h3 h2 h1
      have hu2 := unmap_status ks root A
      obtain ⟨htab, hmem, hpi⟩ := unmap_mapped ks root A hm
      set ksu := (virtual_memory_unmap ks root A).1 with hksu
      have hpair : virtual_memory_unmap ks root A = (ksu, 0) :=
        Prod.ext hksu.symm hu2
      have hstep : shrinkPages root ks (A :: rest) = shrinkPages root ksu rest := by
        simp only [shrinkPages, hpair]
        rw [if_neg (by norm_num)]
      have key : ∀ f i, ksu.tables f i =
          if f = ks.tables (ks.tables (ks.tables root (idx3 A) / 4096) (idx2 A) / 4096)
              (idx1 A) / 4096 ∧ i = idx0 A then 0 else ks.tables f i := by
        intro f i
        rw [htab, setEntry_tables]
      have hself := hwf A (List.mem_cons_self A rest) _ (Option.mem_def.mpr hls)
      have hAnotin : A ∉ rest := (List.nodup_cons.mp hnd).1
      have hag : ∀ B ∈ rest, ∀ r ∈ walkReads ks root B,
          ksu.tables r.1 r.2 = ks.tables r.1 r.2 := by
        intro B hB r hr
        obtain ⟨rf, ri⟩ := r
        have hne : ¬(rf = ks.tables (ks.tables (ks.tables root (idx3 A) / 4096)
            (idx2 A) / 4096) (idx1 A) / 4096 ∧ ri = idx0 A) := by
          rintro ⟨rfl, rfl⟩
          exact hself.2 B (List.mem_cons_of_mem A hB)
            (fun hAB => hAnotin (by rw [hAB]; exact hB)) hr
        rw [key rf ri, if_neg hne]
      have hcongr : ∀ B ∈ rest,
          vm_lookup ksu root B = vm_lookup ks root B ∧
          walkReads ksu root B = walkReads ks root B ∧
          leafSlot ksu root B = leafSlot ks root B ∧
          interiorReads ksu root B = interiorReads ks root B :=
        fun B hB => walk_congr ks ksu root B (hag B hB)
      have hcs : clearedSlots ksu root rest = clearedSlots ks root rest := by
        unfold clearedSlots
        apply filterMap_congr_mem
        intro B hB
        simp only [(hcongr B hB).1, (hcongr B hB).2.2.1]
      have hbk : backingPAs ksu root rest = backingPAs ks root rest := by
        unfold backingPAs
        apply filterMap_congr_mem
        intro B hB
        simp only [(hcongr B hB).1]
      have hwf' : shrinkWF ksu root rest := by
        intro B hB sB hsB
        have hsB' : leafSlot ks root B = some sB := by
          rw [← (hcongr B hB).2.2.1]
          exact Option.mem_def.mp hsB
        obtain ⟨hbi, hbw⟩ := hwf B (List.mem_cons_of_mem A hB) sB
          (Option.mem_def.mpr hsB')
        constructor
        · rw [(hcongr B hB).2.2.2]
          exact hbi
        · intro C hC hne
          rw [(hcongr C hC).2.1]
          exact hbw C (List.mem_cons_of_mem A hC) hne
      obtain ⟨ihm, iht, ihp⟩ := ih ksu hwf' (List.Nodup.of_cons hnd)
      rw [hstep]
      refine ⟨?_, ?_, ?_⟩
      · rw [ihm, hmem]
      · intro f i
        rw [iht f i, hcs, key f i,
          clearedSlots_cons_mapped ks root A rest _ hm hls]
        by_cases hin : (f, i) ∈ clearedSlots ks root rest
        · rw [if_pos hin, if_pos (List.mem_cons_of_mem _ hin)]
        · rw [if_neg hin]
          by_cases hfs : f = ks.tables (ks.tables (ks.tables root (idx3 A) / 4096)
              (idx2 A) / 4096) (idx1 A) / 4096 ∧ i = idx0 A
          · rw [if_pos hfs, if_pos (by rw [hfs.1, hfs.2]; exact List.mem_cons_self _ _)]
          · have hns : (f, i) ∉
                (ks.tables (ks.tables (ks.tables root (idx3 A) / 4096) (idx2 A) / 4096)
                  (idx1 A) / 4096, idx0 A) :: clearedSlots ks root rest := by
              intro hmem'
              rcases List.mem_cons.mp hmem' with he | hin'
              · injection he with e1 e2
                exact hfs ⟨e1, e2⟩
              · exact hin hin'
            rw [if_neg hfs, if_neg hns]
      · rw [ihp, hbk, hpi]
        by_cases hpa : (vm_lookup ks root A).pa = 0
        · rw [backingPAs_cons_skip ks root A rest (fun hc => hc.2 hpa), hpa,
            freepageInfo_id_of_zero]
        · rw [backingPAs_cons_take ks root A rest hm hpa, List.foldl_cons]

/-- C3: when `sbrk` shrinks the program break (the new break stays inside the
legal window and is strictly below the old break), the call succeeds, exactly
the pages whose start address lies in `[ROUNDUP(new break), ROUNDUP(old
break))` are unmapped from the process's page table, every mapping whose walk
does not pass through one of the cleared leaf slots is unchanged, page frames
not backing a page of the range keep their `pageinfo` record, and each
backing frame is released exactly once (its refcount decremented, the owner
cleared when it reaches zero).  The hypotheses beyond the branch guards are
structural well-formedness of the page table: leaf slots of the range are
disjoint from each other's walks and from their own interior slots, and the
backing frames are in range, live, and pairwise distinct. -/
theorem c3_sbrk_shrink (ks : KState) (p : Proc) (difference : Nat)
    (hg1 : ¬((p.program_break + difference) % U64 < p.original_break ∨
        MEMSIZE_VIRTUAL - PAGESIZE ≤ (p.program_break + difference) % U64))
    (hg2 : (p.program_break + difference) % U64 < p.program_break)
    (hwf : shrinkWF ks p.pagetable
      (pageRange (ROUNDUP_PAGE ((p.program_break + difference) % U64))
        (ROUNDUP_PAGE p.program_break)))
    (hback : ∀ pa ∈ backingPAs ks p.pagetable
        (pageRange (ROUNDUP_PAGE ((p.program_break + difference) % U64))
          (ROUNDUP_PAGE p.program_break)),
      pa / PAGESIZE < NPAGES ∧ 0 < (ks.pageinfo (pa / PAGESIZE)).refcount)
    (hdist : ((backingPAs ks p.pagetable
        (pageRange (ROUNDUP_PAGE ((p.program_break + difference) % U64))
          (ROUNDUP_PAGE p.program_break))).map (fun pa => pa / PAGESIZE)).Nodup) :
    C3Post ks p difference := by
  obtain ⟨hsm, hst, hsp3⟩ := shrink_effect p.pagetable
    (pageRange (ROUNDUP_PAGE ((p.program_break + difference) % U64))
      (ROUNDUP_PAGE p.program_break)) ks hwf (pageRange_nodup _ _)
  have hbranch : sbrk ks p difference =
      ((shrinkPages p.pagetable ks
          (pageRange (ROUNDUP_PAGE ((p.program_break + difference) % U64))
            (ROUNDUP_PAGE p.program_break))).1,
       { p with program_break := (p.program_break + difference) % U64 }, 0) := by
    simp only [sbrk]
    rw [if_neg hg1, if_neg (by omega), if_pos hg2]
    cases hu : shrinkPages p.pagetable ks
        (pageRange (ROUNDUP_PAGE ((p.program_break + difference) % U64))
          (ROUNDUP_PAGE p.program_break)) with
    | mk ks1 r =>
      have hr := shrinkPages_snd p.pagetable
        (pageRange (ROUNDUP_PAGE ((p.program_break + difference) % U64))
          (ROUNDUP_PAGE p.program_break)) ks
      rw [hu] at hr
      simp only at hr
      subst hr
      rw [if_neg (by norm_num)]
  have hres1 : (sbrk ks p difference).1 =
      (shrinkPages p.pagetable ks
        (pageRange (ROUNDUP_PAGE ((p.program_break + difference) % U64))
          (ROUNDUP_PAGE p.program_break))).1 := by
    rw [hbranch]
  have hres21 : (sbrk ks p difference).2.1 =
      { p with program_break := (p.program_break + difference) % U64 } := by
    rw [hbranch]
  have hres22 : (sbrk ks p difference).2.2 = 0 := by
    rw [hbranch]
  refine ⟨hres22, ?_, ?_, ?_, ?_, ?_, ?_, ?_⟩
  · rw [hres21]
  · intro va
    exact pageRange_mem _ _ va (roundup_page_aligned _) (roundup_page_aligned _)
  · -- the pages of the range are unmapped afterwards
    intro A hA
    rw [hres1]
    by_cases hm : (vm_lookup ks p.pagetable A).pn = -1
    · apply lookup_invalid_mono ks _ p.pagetable A ?_ hm
      intro f i
      rw [hst f i]
      by_cases hc : (f, i) ∈ clearedSlots ks p.pagetable
          (pageRange (ROUNDUP_PAGE ((p.program_break + difference) % U64))
            (ROUNDUP_PAGE p.program_break))
      · rw [if_pos hc]
        right
        rfl
      · rw [if_neg hc]
        left
        rfl
    · obtain ⟨h3, h2, h1, h0⟩ := lookup_valid ks p.pagetable A hm
      have hls := leafSlot_of_present ks p.pagetable A h3 h2 h1
      have hsIn : (ks.tables (ks.tables (ks.tables p.pagetable (idx3 A) / 4096)
            (idx2 A) / 4096) (idx1 A) / 4096, idx0 A) ∈
          clearedSlots ks p.pagetable
            (pageRange (ROUNDUP_PAGE ((p.program_break + difference) % U64))
              (ROUNDUP_PAGE p.program_break)) :=
        clearedSlots_mem_intro ks p.pagetable _ A _ hA hm hls
      have hni : ∀ r ∈ interiorReads ks p.pagetable A,
          r ∉ clearedSlots ks p.pagetable
            (pageRange (ROUNDUP_PAGE ((p.program_break + difference) % U64))
              (ROUNDUP_PAGE p.program_break)) := by
        intro r hr hrc
        obtain ⟨B, hB, hBm, hBl⟩ := clearedSlots_mem_elim ks p.pagetable _ r hrc
        by_cases hAB : B = A
        · subst hAB
          rw [hls] at hBl
          exact (hwf B hB _ (Option.mem_def.mpr hls)).1
            (by rw [Option.some.inj hBl]; exact hr)
        · have hrw : r ∈ walkReads ks p.pagetable A := by
            rw [walkReads_of_present ks p.pagetable A h3 h2 h1]
            rw [interiorReads_of_present ks p.pagetable A h3 h2] at hr
            simp at hr ⊢
            tauto
          exact (hwf B hB _ (Option.mem_def.mpr hBl)).2 A hA hAB hrw
      have m3 : (p.pagetable, idx3 A) ∈ interiorReads ks p.pagetable A := by
        rw [interiorReads_of_present ks p.pagetable A h3 h2]
        simp
      have m2 : (ks.tables p.pagetable (idx3 A) / 4096, idx2 A) ∈
          interiorReads ks p.pagetable A := by
        rw [interiorReads_of_present ks p.pagetable A h3 h2]
        simp
      have m1 : (ks.tables (ks.tables p.pagetable (idx3 A) / 4096) (idx2 A) / 4096,
          idx1 A) ∈ interiorReads ks p.pagetable A := by
        rw [interiorReads_of_present ks p.pagetable A h3 h2]
        simp
      have t3 : (shrinkPages p.pagetable ks
          (pageRange (ROUNDUP_PAGE ((p.program_break + difference) % U64))
            (ROUNDUP_PAGE p.program_break))).1.tables p.pagetable (idx3 A) =
          ks.tables p.pagetable (idx3 A) := by
        rw [hst _ _, if_neg (hni _ m3)]
      have t2 : (shrinkPages p.pagetable ks
          (pageRange (ROUNDUP_PAGE ((p.program_break + difference) % U64))
            (ROUNDUP_PAGE p.program_break))).1.tables
            (ks.tables p.pagetable (idx3 A) / 4096) (idx2 A) =
          ks.tables (ks.tables p.pagetable (idx3 A) / 4096) (idx2 A) := by
        rw [hst _ _, if_neg (hni _ m2)]
      have t1 : (shrinkPages p.pagetable ks
          (pageRange (ROUNDUP_PAGE ((p.program_break + difference) % U64))
            (ROUNDUP_PAGE p.program_break))).1.tables
            (ks.tables (ks.tables p.pagetable (idx3 A) / 4096) (idx2 A) / 4096)
            (idx1 A) =
          ks.tables (ks.tables (ks.tables p.pagetable (idx3 A) / 4096) (idx2 A) / 4096)
            (idx1 A) := by
        rw [hst _ _, if_neg (hni _ m1)]
      have t0 : (shrinkPages p.pagetable ks
          (pageRange (ROUNDUP_PAGE ((p.program_break + difference) % U64))
            (ROUNDUP_PAGE p.program_break))).1.tables
            (ks.tables (ks.tables (ks.tables p.pagetable (idx3 A) / 4096)
              (idx2 A) / 4096) (idx1 A) / 4096) (idx0 A) = 0 := by
        rw [hst _ _, if_pos hsIn]
      simp [vm_lookup, vamInvalid, t3, t2, t1, t0, h3, h2, h1]
  · -- spectator mappings are unchanged
    intro va' hsp
    rw [hres1]
    apply (walk_congr ks _ p.pagetable va' ?_).1
    intro r hr
    obtain ⟨rf, ri⟩ := r
    have hnc : (rf, ri) ∉ clearedSlots ks p.pagetable
        (pageRange (ROUNDUP_PAGE ((p.program_break + difference) % U64))
          (ROUNDUP_PAGE p.program_break)) := by
      intro hrc
      obtain ⟨B, hB, hBm, hBl⟩ := clearedSlots_mem_elim ks p.pagetable _ (rf, ri) hrc
      exact hsp B hB (rf, ri) hBl hr
    rw [hst rf ri, if_neg hnc]
  · -- frames outside the backing set are untouched
    intro pn hpn
    rw [hres1, hsp3]
    exact foldl_freepageInfo_untouched _ _ _ hpn
  · -- each backing frame is released once
    intro pa hpa
    rw [hres1, hsp3]
    apply foldl_freepageInfo_released _ _ hdist ?_ pa hpa
    intro pb hpb
    obtain ⟨hn, hrc⟩ := hback pb hpb
    obtain ⟨B', hB', hm', hpa', hpb0⟩ := backingPAs_mem_elim ks p.pagetable _ pb hpb
    exact ⟨hpb0, hn, hrc⟩
  · rw [hres1]
    exact hsm

/-- Witness for C3: the shrink witness process releases page `0x101000`
(backed by frame 6) when its break moves from `0x102000` down to
`0x101000`. -/
theorem c3_sbrk_shrink_witness :
    (¬((pC3w.program_break + (U64 - 4096)) % U64 < pC3w.original_break ∨
        MEMSIZE_VIRTUAL - PAGESIZE ≤ (pC3w.program_break + (U64 - 4096)) % U64)) ∧
    (pC3w.program_break + (U64 - 4096)) % U64 < pC3w.program_break ∧
    shrinkWF ksC3w pC3w.pagetable
      (pageRange (ROUNDUP_PAGE ((pC3w.program_break + (U64 - 4096)) % U64))
        (ROUNDUP_PAGE pC3w.program_break)) ∧
    (∀ pa ∈ backingPAs ksC3w pC3w.pagetable
        (pageRange (ROUNDUP_PAGE ((pC3w.program_break + (U64 - 4096)) % U64))
          (ROUNDUP_PAGE pC3w.program_break)),
      pa / PAGESIZE < NPAGES ∧ 0 < (ksC3w.pageinfo (pa / PAGESIZE)).refcount) ∧
    ((backingPAs ksC3w pC3w.pagetable
        (pageRange (ROUNDUP_PAGE ((pC3w.program_break + (U64 - 4096)) % U64))
          (ROUNDUP_PAGE pC3w.program_break))).map (fun pa => pa / PAGESIZE)).Nodup ∧
    C3Post ksC3w pC3w (U64 - 4096) :=
  ⟨by decide, by decide, by decide, by decide, by decide,
   c3_sbrk_shrink ksC3w pC3w (U64 - 4096) (by decide) (by decide) (by decide)
     (by decide) (by decide)⟩
